import Mathlib

/-!
Verification development for the Ansible log parser service
(`backend/api/services/log_parser.py`).

The parser is shallowly embedded over `List Char` lines: Python strings
become `List Char`, Python lists become Lean lists, Python dicts become
association lists (insertion ordered, updates in place, as CPython dicts
behave).  The external `ansible_parser` library (the `Play` and `Logs`
classes) is not part of this repository; its observable surface
(`plays().keys()`, the `_recap` dict, the list of plays and the last
processed time of a `Logs` object, and the exceptions either may raise)
is modelled as oracle parameters supplied to `parse`, so theorems about
`parse` quantify over every possible behaviour of that library.
-/

/-- Python strings as lists of characters. -/
abbrev Chars := List Char

/-- ASCII whitespace as recognised by Python `str.strip()` and the `\s`
regex class (space, tab, newline, carriage return, vertical tab, form
feed; unicode whitespace is not modelled, inputs are ASCII). -/
def isPySpace (c : Char) : Bool :=
  c = ' ' || c = '\t' || c = '\n' || c = '\r' || c = '\x0b' || c = '\x0c'

/-- Python `str.strip()`: drop leading and trailing whitespace. -/
def pyStrip (s : Chars) : Chars :=
  ((s.dropWhile isPySpace).reverse.dropWhile isPySpace).reverse

/-- ASCII decimal digit (`\d`). -/
def isDigitCh (c : Char) : Bool := '0' ≤ c && c ≤ '9'

/-- ASCII lower-casing of one character, as Python `str.lower()` acts on
ASCII letters. -/
def lowerCh (c : Char) : Char :=
  if 'A' ≤ c && c ≤ 'Z' then Char.ofNat (c.toNat + 32) else c

/-- Case-insensitive match of a literal (given lower-case) against the
front of `s`; returns the remainder after the literal on success. -/
def dropLitCI : Chars → Chars → Option Chars
  | [], s => some s
  | _ :: _, [] => none
  | l :: ls, c :: cs => if lowerCh c = l then dropLitCI ls cs else none

/-- Case-sensitive literal at the front of `s` (Python `str.startswith`). -/
def startsWithL (lit : Chars) (s : Chars) : Bool := lit.isPrefixOf s

/-- Python `content.split("\n")`: always at least one piece, pieces do not
contain the separator (the recursive result is never empty, so prepending
to its head is total). -/
def splitLines : Chars → List Chars
  | [] => [[]]
  | c :: rest =>
    if c = '\n' then [] :: splitLines rest
    else (c :: (splitLines rest).headD []) :: (splitLines rest).tail

/-- Python `"\n".join(pieces)`. -/
def joinNL : List Chars → Chars
  | [] => []
  | [l] => l
  | l :: ls => l ++ '\n' :: joinNL ls

/-- `raw_content.replace("\r\n", "\n")`: left-to-right, non-overlapping. -/
def replCRLF : Chars → Chars
  | '\r' :: '\n' :: rest => '\n' :: replCRLF rest
  | c :: rest => c :: replCRLF rest
  | [] => []

/-- `.replace("\r", "\n")` after the CRLF replacement. -/
def replCR (s : Chars) : Chars := s.map (fun c => if c = '\r' then '\n' else c)

/-- Line-ending normalisation performed by `parse` (CRLF then lone CR to LF). -/
def normalizeContent (s : Chars) : Chars := replCR (replCRLF s)

/-- First index at which `pat` occurs as a sublist of `s` (Python
`str.find`, `none` for -1). -/
def findSub (pat : Chars) : Chars → Option Nat
  | [] => if pat = [] then some 0 else none
  | s@(_ :: rest) =>
    if pat.isPrefixOf s then some 0
    else (findSub pat rest).map (· + 1)

/-- `ParsedHost` dataclass: per-host recap counts (Python ints). -/
structure ParsedHost where
  hostname : Chars
  ok : Int := 0
  changed : Int := 0
  failed : Int := 0
  unreachable : Int := 0
  skipped : Int := 0
  rescued : Int := 0
  ignored : Int := 0
  deriving Repr, DecidableEq

/-- `ParsedPlay` dataclass. -/
structure ParsedPlay where
  name : Chars
  order : Nat
  lineNumber : Option Nat := none
  deriving Repr, DecidableEq

/-- `ParsedTaskResult` dataclass. -/
structure ParsedTaskResult where
  hostname : Chars
  status : Chars
  message : Option Chars := none
  deriving Repr, DecidableEq

/-- `ParsedTask` dataclass. -/
structure ParsedTask where
  name : Chars
  order : Nat
  playName : Chars
  lineNumber : Option Nat := none
  results : List ParsedTaskResult := []
  deriving Repr, DecidableEq

/-- `ParseResult` dataclass (the run timestamp is abstracted to a `Nat`
token handed through from the `Logs` oracle). -/
structure ParseResult where
  success : Bool
  hosts : List ParsedHost := []
  plays : List ParsedPlay := []
  tasks : List ParsedTask := []
  timestamp : Option Nat := none
  error : Option Chars := none
  detail : Option Chars := none
  parserType : Option Chars := none
  tracebackStr : Option Chars := none
  deriving Repr, DecidableEq

/-- `determine_status`: aggregate status of one host from its counts. -/
def determineStatus (host : ParsedHost) : Chars :=
  if host.failed > 0 || host.unreachable > 0 then "failed".data
  else if host.changed > 0 then "changed".data
  else "ok".data

/-- `TIMESTAMP_PATTERN.match(line)`: the anchored regex
`^\d{4}-\d{2}-\d{2} \d{2}:\d{2}:\d{2},\d{3} \|` on the line's start. -/
def timestampMatch : Chars → Bool
  | y1 :: y2 :: y3 :: y4 :: '-' :: m1 :: m2 :: '-' :: d1 :: d2 :: ' ' ::
    h1 :: h2 :: ':' :: n1 :: n2 :: ':' :: s1 :: s2 :: ',' ::
    f1 :: f2 :: f3 :: ' ' :: '|' :: _ =>
    isDigitCh y1 && isDigitCh y2 && isDigitCh y3 && isDigitCh y4 &&
    isDigitCh m1 && isDigitCh m2 && isDigitCh d1 && isDigitCh d2 &&
    isDigitCh h1 && isDigitCh h2 && isDigitCh n1 && isDigitCh n2 &&
    isDigitCh s1 && isDigitCh s2 && isDigitCh f1 && isDigitCh f2 &&
    isDigitCh f3
  | _ => false

/-- One line of `_strip_timestamps`: on a timestamp-matching line, drop
through the first `" | "` when one occurs (`line.find(" | ")`), else keep
the line; non-matching lines pass through. -/
def stripLine (line : Chars) : Chars :=
  if timestampMatch line then
    match findSub " | ".data line with
    | some idx => line.drop (idx + 3)
    | none => line
  else line

/-- `_strip_timestamps`: split on newlines, transform each line, rejoin. -/
def stripTimestamps (content : Chars) : Chars :=
  joinNL ((splitLines content).map stripLine)

/-- Case-sensitive literal at the front of `s`; remainder on success. -/
def dropLit : Chars → Chars → Option Chars
  | [], s => some s
  | _ :: _, [] => none
  | l :: ls, c :: cs => if c = l then dropLit ls cs else none

/-- The regex tail `([^\]]+)\]`: a non-empty greedy run of non-`]`
characters followed by `]`; returns the group. -/
def bracketGroup (after : Chars) : Option Chars :=
  let name := after.takeWhile (fun c => c != ']')
  if name.isEmpty then none
  else if (after.dropWhile (fun c => c != ']')).isEmpty then none
  else some name

/-- `re.search` of `LIT([^\]]+)\]` for a literal such as `PLAY [`:
leftmost position where the whole pattern matches; on a position where
the literal matches but the group fails the engine moves one character
right, as the backtracking regex engine does. -/
def searchHeader (lit : Chars) : Chars → Option Chars
  | [] => none
  | s@(_ :: rest) =>
    match dropLit lit s with
    | some after =>
      match bracketGroup after with
      | some name => some name
      | none => searchHeader lit rest
    | none => searchHeader lit rest

/-- `PLAY_PATTERN.search`: the regex `PLAY \[([^\]]+)\]`. -/
def playSearch (s : Chars) : Option Chars := searchHeader "PLAY [".data s

/-- `TASK_PATTERN.search`: the regex `TASK \[([^\]]+)\]`. -/
def taskSearch (s : Chars) : Option Chars := searchHeader "TASK [".data s

/-- The eight status literals of `STATUS_PATTERN`, in alternation order
(no literal is a prefix of another, so the alternation is
deterministic). -/
def statusLits : List Chars :=
  ["ok".data, "changed".data, "failed".data, "fatal".data, "skipping".data,
   "unreachable".data, "ignored".data, "rescued".data]

/-- The regex tail `\s+\[([^\]]+)\]` after the status colon: one-or-more
whitespace, `[`, the non-empty hostname group, `]`. -/
def statusTail (r : Chars) : Option Chars :=
  if (r.takeWhile isPySpace).isEmpty then none
  else
    match r.dropWhile isPySpace with
    | '[' :: r2 => bracketGroup r2
    | _ => none

/-- Try the status alternation case-insensitively at the start of `s`
(`re.match`); yields (lower-cased status, hostname). -/
def statusTry (s : Chars) : List Chars → Option (Chars × Chars)
  | [] => none
  | lit :: more =>
    match dropLitCI lit s with
    | some (':' :: r) =>
      match statusTail r with
      | some host => some (lit, host)
      | none => statusTry s more
    | _ => statusTry s more

/-- `STATUS_PATTERN.match(result_stripped)` with `re.IGNORECASE`. -/
def statusMatchL (s : Chars) : Option (Chars × Chars) := statusTry s statusLits

/-- The group `(?:[^"\\]|\\.)*` of the fallback `"msg"` regex, read up to
the closing quote: maximal munch is the unique decomposition, so no
backtracking is needed; escape sequences are kept verbatim, as
`match.group(1)` returns them. -/
def msgGroup : Chars → Option Chars
  | [] => none
  | '"' :: _ => some []
  | '\\' :: c :: rest =>
    if c = '\n' then none
    else (msgGroup rest).map (fun g => '\\' :: c :: g)
  | ['\\'] => none
  | c :: rest => (msgGroup rest).map (fun g => c :: g)

/-- After the literal `"msg":` — the regex tail `\s*"(group)"`. -/
def msgAfterKey (s : Chars) : Option Chars :=
  match s.dropWhile isPySpace with
  | '"' :: rest => msgGroup rest
  | _ => none

/-- `re.search` of `"msg":\s*"((?:[^"\\]|\\.)*)"` on one line. -/
def msgSearch : Chars → Option Chars
  | [] => none
  | s@(_ :: rest) =>
    match dropLit ['"', 'm', 's', 'g', '"', ':'] s with
    | some r =>
      match msgAfterKey r with
      | some g => some g
      | none => msgSearch rest
    | none => msgSearch rest

/-!
A model of Python `json.loads` (strict mode), sufficient for the JSON
fragments the failure-message extractor feeds it: values are null,
booleans, numbers (kept as their raw token), strings (with the standard
escapes; a `\uXXXX` escape becomes the character of that code point),
arrays and objects.  Unescaped control characters inside strings are
rejected, as the strict decoder rejects them; trailing data after the
value is rejected.
-/

/-- JSON values as `json.loads` produces them. -/
inductive JVal where
  | jnull
  | jbool (b : Bool)
  | jnum (raw : Chars)
  | jstr (s : Chars)
  | jarr (items : List JVal)
  | jobj (members : List (Chars × JVal))
  deriving Repr

/-- JSON inter-token whitespace. -/
def isJsonWs (c : Char) : Bool := c = ' ' || c = '\t' || c = '\n' || c = '\r'

/-- Skip JSON whitespace. -/
def skipWs (s : Chars) : Chars := s.dropWhile isJsonWs

/-- Hexadecimal digit value. -/
def hexVal (c : Char) : Option Nat :=
  let v := c.toNat
  if 48 ≤ v && v ≤ 57 then some (v - 48)
  else if 97 ≤ v && v ≤ 102 then some (v - 87)
  else if 65 ≤ v && v ≤ 70 then some (v - 55)
  else none

/-- One-character JSON string escapes. -/
def escCh : Char → Option Char
  | '"' => some '"'
  | '\\' => some '\\'
  | '/' => some '/'
  | 'b' => some '\x08'
  | 'f' => some '\x0c'
  | 'n' => some '\n'
  | 'r' => some '\r'
  | 't' => some '\t'
  | _ => none

/-- JSON string body after the opening quote: content and remainder
after the closing quote. -/
def parseJString : Chars → Option (Chars × Chars)
  | [] => none
  | '"' :: rest => some ([], rest)
  | '\\' :: rest =>
    match rest with
    | 'u' :: a :: b :: c :: d :: rest2 =>
      match hexVal a, hexVal b, hexVal c, hexVal d with
      | some ha, some hb, some hc, some hd =>
        (parseJString rest2).map (fun p =>
          (Char.ofNat (((ha * 16 + hb) * 16 + hc) * 16 + hd) :: p.1, p.2))
      | _, _, _, _ => none
    | e :: rest2 =>
      match escCh e with
      | some ec => (parseJString rest2).map (fun p => (ec :: p.1, p.2))
      | none => none
    | [] => none
  | c :: rest =>
    if c.toNat < 0x20 then none
    else (parseJString rest).map (fun p => (c :: p.1, p.2))

/-- Optional fraction then optional exponent of a JSON number; returns
the consumed raw characters and the remainder. -/
def parseFracExp (s : Chars) : Chars × Chars :=
  let fr1 :=
    match s with
    | '.' :: r =>
      let ds := r.takeWhile isDigitCh
      if ds.isEmpty then (([] : Chars), s) else ('.' :: ds, r.dropWhile isDigitCh)
    | _ => ([], s)
  let fr := fr1.1
  let s1 := fr1.2
  match s1 with
  | e :: r =>
    if e = 'e' || e = 'E' then
      let sg :=
        match r with
        | '+' :: rr => (['+'], rr)
        | '-' :: rr => (['-'], rr)
        | _ => (([] : Chars), r)
      let ds := sg.2.takeWhile isDigitCh
      if ds.isEmpty then (fr, s1)
      else (fr ++ e :: sg.1 ++ ds, sg.2.dropWhile isDigitCh)
    else (fr, s1)
  | [] => (fr, s1)

/-- JSON number token (sign, integer part, fraction, exponent). -/
def parseJNumber (s : Chars) : Option (Chars × Chars) :=
  let sg :=
    match s with
    | '-' :: r => ((['-'] : Chars), r)
    | _ => ([], s)
  match sg.2 with
  | [] => none
  | c :: r =>
    if c = '0' then
      let fe := parseFracExp r
      some (sg.1 ++ c :: fe.1, fe.2)
    else if isDigitCh c then
      let ds := r.takeWhile isDigitCh
      let fe := parseFracExp (r.dropWhile isDigitCh)
      some (sg.1 ++ c :: ds ++ fe.1, fe.2)
    else none

/-- Recursive-descent JSON parser, fuelled so the recursion is
structural.  `mode` selects the production: 0 value, 1 object body after
`{` (result wrapped as `jobj`), 2 object body after a member, 3 array
body after `[` (wrapped as `jarr`), 4 array body after an item. -/
def parseJ : Nat → Nat → Chars → Option (JVal × Chars)
  | 0, _, _ => none
  | Nat.succ fuel, 0, s =>
    match skipWs s with
    | [] => none
    | '"' :: r => (parseJString r).map (fun p => (JVal.jstr p.1, p.2))
    | '\x7b' :: r => parseJ fuel 1 r
    | '[' :: r => parseJ fuel 3 r
    | 't' :: r =>
      if "rue".data.isPrefixOf r then some (JVal.jbool true, r.drop 3) else none
    | 'f' :: r =>
      if "alse".data.isPrefixOf r then some (JVal.jbool false, r.drop 4) else none
    | 'n' :: r =>
      if "ull".data.isPrefixOf r then some (JVal.jnull, r.drop 3) else none
    | c :: r =>
      if c = '-' || isDigitCh c then
        (parseJNumber (c :: r)).map (fun p => (JVal.jnum p.1, p.2))
      else none
  | Nat.succ fuel, 1, s =>
    (match skipWs s with
    | '\x7d' :: r => some (JVal.jobj [], r)
    | '"' :: r =>
      (parseJString r).bind (fun ps =>
        match skipWs ps.2 with
        | ':' :: r2 =>
          (parseJ fuel 0 r2).bind (fun pv =>
            (parseJ fuel 2 pv.2).bind (fun pt =>
              match pt.1 with
              | JVal.jobj tl => some (JVal.jobj ((ps.1, pv.1) :: tl), pt.2)
              | _ => none))
        | _ => none)
    | _ => none)
  | Nat.succ fuel, 2, s =>
    (match skipWs s with
    | '\x7d' :: r => some (JVal.jobj [], r)
    | ',' :: r =>
      (match skipWs r with
      | '"' :: r1 =>
        (parseJString r1).bind (fun ps =>
          match skipWs ps.2 with
          | ':' :: r2 =>
            (parseJ fuel 0 r2).bind (fun pv =>
              (parseJ fuel 2 pv.2).bind (fun pt =>
                match pt.1 with
                | JVal.jobj tl => some (JVal.jobj ((ps.1, pv.1) :: tl), pt.2)
                | _ => none))
          | _ => none)
      | _ => none)
    | _ => none)
  | Nat.succ fuel, 3, s =>
    (match skipWs s with
    | ']' :: r => some (JVal.jarr [], r)
    | _ =>
      (parseJ fuel 0 s).bind (fun pv =>
        (parseJ fuel 4 pv.2).bind (fun pt =>
          match pt.1 with
          | JVal.jarr tl => some (JVal.jarr (pv.1 :: tl), pt.2)
          | _ => none)))
  | Nat.succ fuel, 4, s =>
    (match skipWs s with
    | ']' :: r => some (JVal.jarr [], r)
    | ',' :: r =>
      (parseJ fuel 0 r).bind (fun pv =>
        (parseJ fuel 4 pv.2).bind (fun pt =>
          match pt.1 with
          | JVal.jarr tl => some (JVal.jarr (pv.1 :: tl), pt.2)
          | _ => none))
    | _ => none)
  | Nat.succ _, _, _ => none

/-- `json.loads`: parse one value, allow surrounding whitespace, reject
trailing data.  The fuel bound exceeds any possible nesting depth. -/
def jsonLoads (s : Chars) : Option JVal :=
  match parseJ (2 * s.length + 2) 0 s with
  | some (v, rest) => if skipWs rest = [] then some v else none
  | none => none

/-- Python `", ".join`. -/
def commaJoin : List Chars → Chars
  | [] => []
  | [x] => x
  | x :: xs => x ++ ',' :: ' ' :: commaJoin xs

/-- Python `repr` of a decoded JSON value, fuelled for container
nesting (strings are quoted; escaping inside `repr` of exotic strings is
not modelled — no claim depends on it). -/
def pyReprFuel : Nat → JVal → Chars
  | _, JVal.jnull => "None".data
  | _, JVal.jbool true => "True".data
  | _, JVal.jbool false => "False".data
  | _, JVal.jnum raw => raw
  | _, JVal.jstr s => '\'' :: (s ++ ['\''])
  | 0, JVal.jarr _ => []
  | 0, JVal.jobj _ => []
  | Nat.succ f, JVal.jarr items =>
    '[' :: (commaJoin (items.map (pyReprFuel f)) ++ [']'])
  | Nat.succ f, JVal.jobj ms =>
    '\x7b' :: (commaJoin (ms.map (fun m =>
      pyReprFuel f (JVal.jstr m.1) ++ ':' :: ' ' :: pyReprFuel f m.2)) ++ ['\x7d'])

/-- Python `str()` of a decoded JSON value: identity on strings,
`repr`-like elsewhere. -/
def pyStrOf (fuel : Nat) : JVal → Chars
  | JVal.jstr s => s
  | v => pyReprFuel fuel v

/-- Lookup in an object's member list; a duplicated key keeps the last
occurrence, as building a Python dict does. -/
def lookupLast (ms : List (Chars × JVal)) (k : Chars) : Option JVal :=
  (ms.reverse.find? (fun m => m.1 = k)).map Prod.snd

/-- `_parse_msg_from_json`: decode the string and read its `msg` field;
a list becomes its items' `str()` forms joined with newlines, any other
value its `str()` form; `None` when decoding fails, the value is not an
object, or `msg` is absent. -/
def parseMsgFromJson (jsonStr : Chars) : Option Chars :=
  match jsonLoads jsonStr with
  | some (JVal.jobj ms) =>
    match lookupLast ms "msg".data with
    | some (JVal.jarr items) =>
      some (joinNL (items.map (pyStrOf (jsonStr.length + 1))))
    | some v => some (pyStrOf (jsonStr.length + 1) v)
    | none => none
  | _ => none

/-- Python truthiness of an optional string (`if msg:`): `None` and the
empty string are falsy. -/
def oTruthy : Option Chars → Bool
  | some m => !m.isEmpty
  | none => false

/-- The multiline accumulation loop: append each line stripped,
stopping after a line that strips to exactly `}`. -/
def collectJson : List Chars → List Chars
  | [] => []
  | l :: more =>
    let s := pyStrip l
    if s = ['\x7d'] then [s] else s :: collectJson more

/-- Strategies 1–2 of `_extract_failure_message`: inline `=> {` on the
status line, first as one JSON fragment, then extended with up to 99
following lines. -/
def efmStep12 (statusLine : Chars) (rest : List Chars) : Option Chars :=
  match findSub "=> \x7b".data statusLine with
  | none => none
  | some arrowIdx =>
    let fragment := pyStrip (statusLine.drop (arrowIdx + 3))
    let msg1 := parseMsgFromJson fragment
    if oTruthy msg1 then msg1
    else
      let jsonText := joinNL (fragment :: collectJson (rest.take 99))
      let msg2 := parseMsgFromJson jsonText
      if oTruthy msg2 then msg2 else none

/-- Strategy 3: the `=> {` marker at the start of the next (stripped)
line, extended with up to 98 further lines. -/
def efmStep3 (rest : List Chars) : Option Chars :=
  match rest with
  | [] => none
  | next :: more =>
    let nstr := pyStrip next
    if startsWithL "=> \x7b".data nstr then
      let jsonText := joinNL (pyStrip (nstr.drop 3) :: collectJson (more.take 98))
      let msg := parseMsgFromJson jsonText
      if oTruthy msg then msg else none
    else none

/-- Strategy 4 scan: over the status line and up to 49 following lines,
stop early at a `TASK [`/`PLAY [` section start, return the first raw
`"msg": "..."` regex group. -/
def efmScan : List Chars → Option Chars
  | [] => none
  | l :: more =>
    let s := pyStrip l
    if startsWithL "TASK [".data s || startsWithL "PLAY [".data s then none
    else
      match msgSearch s with
      | some g => some g
      | none => efmScan more

/-- `_extract_failure_message` anchored at a failed/fatal status line
(`statusLine`), with `rest` the lines after it. -/
def extractFailureMessage (statusLine : Chars) (rest : List Chars) : Option Chars :=
  match efmStep12 statusLine rest with
  | some m => some m
  | none =>
    match efmStep3 rest with
    | some m => some m
    | none => efmScan (statusLine :: rest.take 49)

/-- First-match association-list lookup (Python dict lookup; keys are
unique in every dict the parser builds). -/
def alGet {κ α : Type} [DecidableEq κ] (m : List (κ × α)) (k : κ) : Option α :=
  (m.find? (fun e => decide (e.1 = k))).map Prod.snd

/-- Python dict assignment: update an existing key in place (keeping its
position, as CPython dicts do) or append a new binding. -/
def alSet {κ α : Type} [DecidableEq κ] (m : List (κ × α)) (k : κ) (v : α) :
    List (κ × α) :=
  if (alGet m k).isSome then m.map (fun e => if e.1 = k then (k, v) else e)
  else m ++ [(k, v)]

/-- A task identity key: (play name, task name, order within play). -/
abbrev TaskKey := Chars × Chars × Nat

/-- The merge of one matched host-result line into the task map: drop
any earlier result for that hostname, then append the new one (the
last-write-wins upsert of `_extract_tasks_from_content`). -/
def updateTaskResults (m : List (TaskKey × ParsedTask)) (key : TaskKey)
    (host status : Chars) (msg : Option Chars) : List (TaskKey × ParsedTask) :=
  m.map (fun e =>
    if e.1 = key then
      (e.1, { e.2 with
        results := e.2.results.filter (fun r => decide (r.hostname ≠ host)) ++
          [⟨host, status, msg⟩] })
    else e)

/-- The mutable scanner state of `_extract_tasks_from_content`:
`curPlay` is `current_play`, `playTaskOrder` the per-play order counter
dict, `inTask` the active task section (play, task name, order, 1-based
header line) — the flat-state rendering of the nested result-consuming
loop — and `taskMap` the keyed task dict. -/
structure TEState where
  curPlay : Option Chars
  playTaskOrder : List (Chars × Nat)
  inTask : Option (Chars × Chars × Nat × Nat)
  taskMap : List (TaskKey × ParsedTask)
  deriving Repr

/-- One line of the `_extract_tasks_from_content` scan.  A `PLAY [` line
resets the play's order counter to 0 and leaves any task section; a
`TASK [` line (with a current play) derives the task identity from the
current counter and increments it; a `PLAY RECAP` line leaves the task
section; any other line, while inside a task section, is matched against
the status pattern and merged; `rest` is the lookahead the failure
message extractor receives. -/
def teStep (st : TEState) (lineIdx : Nat) (line : Chars) (rest : List Chars) :
    TEState :=
  let s := pyStrip line
  if startsWithL "PLAY [".data s then
    match playSearch s with
    | some p =>
      { st with curPlay := some p, playTaskOrder := alSet st.playTaskOrder p 0,
                inTask := none }
    | none => { st with inTask := none }
  else if startsWithL "TASK [".data s then
    match st.curPlay with
    | some cp =>
      match taskSearch s with
      | some tn =>
        let ord := (alGet st.playTaskOrder cp).getD 0
        { st with playTaskOrder := alSet st.playTaskOrder cp (ord + 1),
                  inTask := some (cp, tn, ord, lineIdx + 1) }
      | none => { st with inTask := none }
    | none => { st with inTask := none }
  else if startsWithL "PLAY RECAP".data s then
    { st with inTask := none }
  else
    match st.inTask with
    | some (cp, tn, ord, tline) =>
      match statusMatchL s with
      | some (stat, host) =>
        let msg :=
          if stat = "failed".data || stat = "fatal".data then
            extractFailureMessage line rest
          else none
        let key : TaskKey := (cp, tn, ord)
        let m1 :=
          if (alGet st.taskMap key).isNone then
            alSet st.taskMap key ⟨tn, ord, cp, some tline, []⟩
          else st.taskMap
        { st with taskMap := updateTaskResults m1 key host stat msg }
      | none => st
    | none => st

/-- The scan over all lines. -/
def extractGo (st : TEState) (lineIdx : Nat) :
    List Chars → List (TaskKey × ParsedTask)
  | [] => st.taskMap
  | line :: rest => extractGo (teStep st lineIdx line rest) (lineIdx + 1) rest

/-- `_extract_tasks_from_content` (`play_names` is accepted but unused,
as in the source); the result is `list(task_map.values())`. -/
def extractTasksFromContent (content : Chars) (playNames : List Chars) :
    List ParsedTask :=
  (extractGo ⟨none, [], none, []⟩ 0 (splitLines content)).map Prod.snd

/-- The scan loop of `_extract_plays_with_line_numbers`: for each line
(1-based), on a play-header match whose name is expected and not yet
found, record it with the next order value. -/
def epScan (names : List Chars) :
    List Chars → Nat → List ParsedPlay → Nat → List Chars →
      List ParsedPlay × Nat × List Chars
  | [], _, plays, order, found => (plays, order, found)
  | line :: rest, lineNum, plays, order, found =>
    match playSearch line with
    | some name =>
      if name ∈ names ∧ name ∉ found then
        epScan names rest (lineNum + 1) (plays ++ [⟨name, order, some lineNum⟩])
          (order + 1) (name :: found)
      else epScan names rest (lineNum + 1) plays order found
    | none => epScan names rest (lineNum + 1) plays order found

/-- The fallback loop: append every expected play name never found in
the content, with a null source line and the next order values. -/
def epFallback : List Chars → List ParsedPlay → Nat → List Chars → List ParsedPlay
  | [], plays, _, _ => plays
  | n :: more, plays, order, found =>
    if n ∉ found then epFallback more (plays ++ [⟨n, order, none⟩]) (order + 1) found
    else epFallback more plays order found

/-- `_extract_plays_with_line_numbers`. -/
def extractPlaysWithLineNumbers (content : Chars) (playNames : List Chars) :
    List ParsedPlay :=
  let r := epScan playNames (splitLines content) 1 [] 0 []
  epFallback playNames r.1 r.2.1 r.2.2

/-- The observable surface of one external `ansible_parser` `Play`
object: the keys of `plays()` and the `_recap` dict (hostname → counts
dict). -/
structure PlayExt where
  playNames : List Chars
  recap : List (Chars × List (Chars × Int))

/-- The observable surface of an external `Logs` object. -/
structure LogsExt where
  plays : List PlayExt
  lastProcessedTime : Option Nat

/-- `counts.get(key, 0)`. -/
def countsGet (counts : List (Chars × Int)) (k : Chars) : Int :=
  (alGet counts k).getD 0

/-- `_extract_hosts_from_recap`: one `ParsedHost` per recap entry, with
the seven recognised keys defaulting to 0 (unknown keys are never read,
hence ignored). -/
def extractHostsFromRecap (recap : List (Chars × List (Chars × Int))) :
    List ParsedHost :=
  recap.map (fun e =>
    { hostname := e.1,
      ok := countsGet e.2 "ok".data,
      changed := countsGet e.2 "changed".data,
      failed := countsGet e.2 "failed".data,
      unreachable := countsGet e.2 "unreachable".data,
      skipped := countsGet e.2 "skipped".data,
      rescued := countsGet e.2 "rescued".data,
      ignored := countsGet e.2 "ignored".data })

/-- Field-wise accumulation of a repeated hostname's counts
(`existing.ok += host.ok` etc. in `_parse_log_file`). -/
def addHostCounts (a b : ParsedHost) : ParsedHost :=
  { a with
    ok := a.ok + b.ok
    changed := a.changed + b.changed
    failed := a.failed + b.failed
    unreachable := a.unreachable + b.unreachable
    skipped := a.skipped + b.skipped
    rescued := a.rescued + b.rescued
    ignored := a.ignored + b.ignored }

/-- The `all_hosts` accumulation loop of `_parse_log_file`: a repeated
hostname has its counts added in place, a new hostname is appended. -/
def accumHosts (acc : List ParsedHost) : List ParsedHost → List ParsedHost
  | [] => acc
  | h :: more =>
    if acc.any (fun e => decide (e.hostname = h.hostname)) then
      accumHosts
        (acc.map (fun e => if e.hostname = h.hostname then addHostCounts e h else e))
        more
    else accumHosts (acc ++ [h]) more

/-- The `all_play_names` accumulation loop: append first occurrences. -/
def accumNames (acc : List Chars) : List Chars → List Chars
  | [] => acc
  | n :: more =>
    if n ∈ acc then accumNames acc more else accumNames (acc ++ [n]) more

/-- The per-`Play` loop of `_parse_log_file` over the plays of the
`Logs` object, accumulating play names and recap hosts. -/
def logsAccumGo (acc : List Chars × List ParsedHost) :
    List PlayExt → List Chars × List ParsedHost
  | [] => acc
  | p :: more =>
    logsAccumGo
      (accumNames acc.1 p.playNames, accumHosts acc.2 (extractHostsFromRecap p.recap))
      more

/-- Behaviour of the external `Play(play_output=...)` interaction: a
result or a raised exception (modelled as its message). -/
abbrev PlayOracle := Chars → Except Chars PlayExt

/-- Behaviour of the external `Logs(log_file=...)` interaction. -/
abbrev LogsOracle := Chars → Except Chars LogsExt

/-- `_parse_play_output`: raw-stdout branch. -/
def parsePlayOutput (po : PlayOracle) (content : Chars) : Except Chars ParseResult :=
  match po content with
  | .error e => .error e
  | .ok ext =>
    let playNames := ext.playNames
    let plays := extractPlaysWithLineNumbers content playNames
    let hosts := extractHostsFromRecap ext.recap
    let tasks := extractTasksFromContent content playNames
    if hosts.isEmpty then
      .ok { success := false, error := some "No hosts found in log".data,
            detail := some "The parser could not find any PLAY RECAP section".data,
            parserType := some "play".data }
    else
      .ok { success := true, hosts := hosts, plays := plays, tasks := tasks,
            timestamp := none, parserType := some "play".data }

/-- `_parse_log_file`: timestamped-log branch (the temp-file plumbing
and cleanup have no observable effect on the result and are omitted). -/
def parseLogFile (lo : LogsOracle) (content : Chars) : Except Chars ParseResult :=
  match lo content with
  | .error e => .error e
  | .ok lext =>
    let acc := logsAccumGo ([], []) lext.plays
    let allPlayNames := acc.1
    let allHosts := acc.2
    let strippedContent := stripTimestamps content
    let allTasks := extractTasksFromContent strippedContent allPlayNames
    if allHosts.isEmpty then
      .ok { success := false, error := some "No hosts found in log".data,
            detail := some "The parser could not find any PLAY RECAP section".data,
            parserType := some "logs".data }
    else
      .ok { success := true, hosts := allHosts,
            plays := extractPlaysWithLineNumbers content allPlayNames,
            tasks := allTasks, timestamp := lext.lastProcessedTime,
            parserType := some "logs".data }

/-- `_detect_format`: timestamp pattern against the first line of the
stripped content (empty string when all-whitespace). -/
def detectFormat (content : Chars) : Chars :=
  let st := pyStrip content
  let firstLine := if st.isEmpty then [] else (splitLines st).headD []
  if timestampMatch firstLine then "logs".data else "play".data

/-- `LogParserService.parse`: empty check, normalisation, format
detection, dispatch, and the catch-all turning any exception of the
dispatched branch into the `Log parsing failed` result
(`traceback.format_exc()` is modelled by the exception message). -/
def parse (po : PlayOracle) (lo : LogsOracle) (rawContent : Chars) : ParseResult :=
  if rawContent.isEmpty || (pyStrip rawContent).isEmpty then
    { success := false, error := some "Empty log content".data,
      detail :=
        some "The provided log content is empty or contains only whitespace".data }
  else
    let content := normalizeContent rawContent
    let parserType := detectFormat content
    match
      (if parserType = "logs".data then parseLogFile lo content
       else parsePlayOutput po content) with
    | .ok r => r
    | .error e =>
      { success := false, error := some "Log parsing failed".data, detail := some e,
        parserType := some parserType, tracebackStr := some e }

/-- An external-library behaviour with no plays and no recap hosts. -/
def trivialPlayOracle : PlayOracle := fun _ => .ok ⟨[], []⟩

/-- An external-library behaviour with no parsed plays. -/
def trivialLogsOracle : LogsOracle := fun _ => .ok ⟨[], none⟩

/-- Two recap sections (one per runner invocation in a timestamped log)
both listing `h1`, with ok=2 and ok=3. -/
def twoRecapLogsOracle : LogsOracle := fun _ =>
  .ok ⟨[⟨[], [("h1".data, [("ok".data, 2)])]⟩,
        ⟨[], [("h1".data, [("ok".data, 3)])]⟩], none⟩

/-- A play header line `PLAY [X]`. -/
def playLine (X : Chars) : Chars := "PLAY [".data ++ (X ++ [']'])

/-- A task header line `TASK [Y]`. -/
def taskLine (Y : Chars) : Chars := "TASK [".data ++ (Y ++ [']'])

/-- A result line `ok: [h]`. -/
def okLine (h : Chars) : Chars := "ok: [".data ++ (h ++ [']'])

/-- A result line `changed: [h]`. -/
def chLine (h : Chars) : Chars := "changed: [".data ++ (h ++ [']'])

/-- A well-formed play/task/host name for the schematic transcripts:
non-empty, no closing bracket, no newline. -/
def goodName (X : Chars) : Prop := X ≠ [] ∧ ']' ∉ X ∧ '\n' ∉ X

/-- Merge one status line into the task map (the composite of the
create-if-absent and upsert steps of the scanner). -/
def upsertStatus (m : List (TaskKey × ParsedTask)) (cp tn : Chars) (ord tl : Nat)
    (h stat : Chars) (msg : Option Chars) : List (TaskKey × ParsedTask) :=
  updateTaskResults
    (if (alGet m (cp, tn, ord)).isNone then
      alSet m (cp, tn, ord) ⟨tn, ord, cp, some tl, []⟩
    else m) (cp, tn, ord) h stat msg

/-- The effect of a run of `ok: [h]` result lines on the task map. -/
def applyOkBatch (cp tn : Chars) (ord tl : Nat) :
    List (TaskKey × ParsedTask) → List Chars → List (TaskKey × ParsedTask)
  | m, [] => m
  | m, h :: hs =>
    applyOkBatch cp tn ord tl (upsertStatus m cp tn ord tl h "ok".data none) hs

/-- The 1-based number of the first line at or after line `i` whose play
pattern search yields `n` (declarative reference for the scan). -/
def fplFrom : List Chars → Nat → Chars → Option Nat
  | [], _, _ => none
  | l :: rest, i, n =>
    if playSearch l = some n then some i else fplFrom rest (i + 1) n

/-- C9: `determine_status` depends on nothing but the counts: `failed`
when failed>0 or unreachable>0, else `changed` when changed>0, else
`ok`; with the four table instances {failed:1} → failed,
{changed:2,failed:0} → changed, {ok:5} → ok, {unreachable:1,ok:5} →
failed. -/
theorem determine_status_spec :
    (∀ h : ParsedHost,
      (h.failed > 0 ∨ h.unreachable > 0 → determineStatus h = "failed".data) ∧
      (h.failed ≤ 0 → h.unreachable ≤ 0 → h.changed > 0 →
        determineStatus h = "changed".data) ∧
      (h.failed ≤ 0 → h.unreachable ≤ 0 → h.changed ≤ 0 →
        determineStatus h = "ok".data)) ∧
    determineStatus { hostname := "h1".data, failed := 1 } = "failed".data ∧
    determineStatus { hostname := "h1".data, changed := 2, failed := 0 }
      = "changed".data ∧
    determineStatus { hostname := "h1".data, ok := 5 } = "ok".data ∧
    determineStatus { hostname := "h1".data, unreachable := 1, ok := 5 }
      = "failed".data := by
  refine ⟨fun h => ⟨?_, ?_, ?_⟩, by decide, by decide, by decide, by decide⟩
  · intro hc
    simp only [determineStatus]
    rcases hc with hc | hc <;>
      simp [decide_eq_true_eq, hc]
  · intro h1 h2 h3
    simp [determineStatus, not_lt.mpr h1, not_lt.mpr h2, h3]
  · intro h1 h2 h3
    simp [determineStatus, not_lt.mpr h1, not_lt.mpr h2, not_lt.mpr h3]

/-- Witness for `determine_status_spec`: the hypothesised branch facts at
a concrete host. -/
theorem determine_status_spec_witness :
    determineStatus { hostname := "w".data, failed := 2 } = "failed".data :=
  (determine_status_spec.1 _).1 (Or.inl (by decide))

theorem findSub_none_no_occ {pat : Chars} (hpat : pat ≠ []) :
    ∀ s : Chars, findSub pat s = none → ∀ k, pat.isPrefixOf (s.drop k) = false := by
  intro s
  induction s with
  | nil =>
    intro _ k
    cases pat with
    | nil => exact absurd rfl hpat
    | cons p ps => simp [List.isPrefixOf]
  | cons c rest ih =>
    intro hnone k
    simp only [findSub] at hnone
    by_cases hp : pat.isPrefixOf (c :: rest) = true
    · simp [hp] at hnone
    · cases k with
      | zero =>
        simp only [List.drop_zero]
        exact Bool.eq_false_iff.mpr hp
      | succ k =>
        simp only [List.drop_succ_cons]
        refine ih ?_ k
        rcases h : findSub pat rest with _ | i
        · rfl
        · rw [h] at hnone
          simp [hp] at hnone

theorem findSub_some_first {pat : Chars} :
    ∀ (s : Chars) (i : Nat), findSub pat s = some i →
      pat.isPrefixOf (s.drop i) = true ∧
      ∀ j < i, pat.isPrefixOf (s.drop j) = false := by
  intro s
  induction s with
  | nil =>
    intro i h
    simp only [findSub] at h
    split at h
    · rename_i hp
      cases h
      subst hp
      exact ⟨rfl, fun j hj => absurd hj (Nat.not_lt_zero j)⟩
    · cases h
  | cons c rest ih =>
    intro i h
    simp only [findSub] at h
    by_cases hp : pat.isPrefixOf (c :: rest) = true
    · rw [if_pos hp] at h
      cases h
      exact ⟨hp, fun j hj => absurd hj (Nat.not_lt_zero j)⟩
    · rw [if_neg hp] at h
      rcases hfind : findSub pat rest with _ | i₀
      · rw [hfind] at h; cases h
      · rw [hfind] at h
        have hinj : some (i₀ + 1) = some i := h
        cases hinj
        obtain ⟨h1, h2⟩ := ih i₀ hfind
        refine ⟨by simpa using h1, ?_⟩
        intro j hj
        cases j with
        | zero =>
          simp only [List.drop_zero]
          exact Bool.eq_false_iff.mpr hp
        | succ j =>
          simp only [List.drop_succ_cons]
          exact h2 j (Nat.lt_of_succ_lt_succ hj)

theorem splitLines_ne_nil : ∀ s : Chars, splitLines s ≠ [] := by
  intro s
  cases s with
  | nil => exact fun h => List.noConfusion h
  | cons c rest =>
    by_cases hc : c = '\n'
    · simp [splitLines, hc]
    · simp [splitLines, hc]

theorem splitLines_no_nl : ∀ (s : Chars) (l : Chars), l ∈ splitLines s → '\n' ∉ l := by
  intro s
  induction s with
  | nil =>
    intro l hl
    simp only [splitLines, List.mem_singleton] at hl
    simp [hl]
  | cons c rest ih =>
    intro l hl
    obtain ⟨l0, ls, hr⟩ := List.exists_cons_of_ne_nil (splitLines_ne_nil rest)
    by_cases hc : c = '\n'
    · rw [splitLines, if_pos hc] at hl
      rcases List.mem_cons.mp hl with h1 | h1
      · simp [h1]
      · exact ih l h1
    · rw [splitLines, if_neg hc, hr] at hl
      rcases List.mem_cons.mp hl with h1 | h1
      · subst h1
        intro hmem
        rcases List.mem_cons.mp hmem with h2 | h2
        · exact hc h2.symm
        · exact ih l0 (by simp [hr]) (by simpa using h2)
      · exact ih l (by
          rw [hr]
          exact List.mem_cons_of_mem l0 (by simpa using h1))

theorem splitLines_append_nl (s : Chars) :
    ∀ l : Chars, '\n' ∉ l → splitLines (l ++ '\n' :: s) = l :: splitLines s := by
  intro l
  induction l with
  | nil => intro _; simp [splitLines]
  | cons c cs ih =>
    intro hl
    have hc : c ≠ '\n' := fun h => hl (by simp [h])
    have hcs : '\n' ∉ cs := fun h => hl (List.mem_cons_of_mem c h)
    rw [List.cons_append, splitLines, if_neg hc, ih hcs]
    simp

theorem splitLines_no_nl_id : ∀ l : Chars, '\n' ∉ l → splitLines l = [l] := by
  intro l
  induction l with
  | nil => intro _; rfl
  | cons c cs ih =>
    intro hl
    have hc : c ≠ '\n' := fun h => hl (by simp [h])
    have hcs : '\n' ∉ cs := fun h => hl (List.mem_cons_of_mem c h)
    rw [splitLines, if_neg hc, ih hcs]
    simp

theorem splitLines_joinNL :
    ∀ ls : List Chars, ls ≠ [] → (∀ l ∈ ls, '\n' ∉ l) →
      splitLines (joinNL ls) = ls := by
  intro ls
  induction ls with
  | nil => intro h; exact absurd rfl h
  | cons l rest ih =>
    intro _ hnl
    cases rest with
    | nil => exact splitLines_no_nl_id l (hnl l (by simp))
    | cons l2 rest2 =>
      have hjoin : joinNL (l :: l2 :: rest2) = l ++ '\n' :: joinNL (l2 :: rest2) := rfl
      rw [hjoin, splitLines_append_nl _ l (hnl l (by simp)),
        ih (by simp) (fun x hx => hnl x (List.mem_cons_of_mem l hx))]

theorem stripLine_subset : ∀ (line : Chars) (c : Char), c ∈ stripLine line → c ∈ line := by
  intro line c hc
  unfold stripLine at hc
  split at hc
  · split at hc
    · exact List.mem_of_mem_drop hc
    · exact hc
  · exact hc

/-- C8 counterexample: the line `2024-01-15 10:30:00,000 |x` matches the
timestamp-prefix pattern, yet contains no occurrence of the separator
`" | "`, and `_strip_timestamps` passes it through unchanged instead of
removing a prefix — so it is not true that every matching line is
transformed by removing everything up to and including the first
separator occurrence. -/
theorem strip_timestamps_claim_false :
    ¬ ((∀ line : Chars, timestampMatch line = true →
          ∃ idx, ((" | ".data.isPrefixOf (line.drop idx)) = true ∧
                  ∀ j < idx, (" | ".data.isPrefixOf (line.drop j)) = false) ∧
                 stripLine line = line.drop (idx + 3)) ∧
       (∀ line : Chars, timestampMatch line = false → stripLine line = line)) := by
  rintro ⟨hclaim, -⟩
  obtain ⟨idx, ⟨hpre, -⟩, -⟩ :=
    hclaim "2024-01-15 10:30:00,000 |x".data (by decide)
  have hnone : findSub " | ".data "2024-01-15 10:30:00,000 |x".data = none := by
    decide
  have hfalse := findSub_none_no_occ (by decide) _ hnone idx
  rw [hfalse] at hpre
  exact Bool.noConfusion hpre

/-- C8 (amended): a line matching the timestamp-prefix pattern is
transformed by removing everything up to and including the first
occurrence of the separator `" | "` when such an occurrence exists, and
is passed through unchanged when it does not; every non-matching line
passes through unchanged; and the stripped text consumed downstream
splits into exactly the per-line transforms of the input's lines. -/
theorem strip_timestamps_spec :
    (∀ line : Chars, timestampMatch line = true →
      (∃ idx, ((" | ".data.isPrefixOf (line.drop idx)) = true ∧
               ∀ j < idx, (" | ".data.isPrefixOf (line.drop j)) = false) ∧
              stripLine line = line.drop (idx + 3)) ∨
      ((∀ k, (" | ".data.isPrefixOf (line.drop k)) = false) ∧
       stripLine line = line)) ∧
    (∀ line : Chars, timestampMatch line = false → stripLine line = line) ∧
    (∀ content : Chars,
      splitLines (stripTimestamps content) = (splitLines content).map stripLine) := by
  refine ⟨?_, ?_, ?_⟩
  · intro line hmatch
    rcases hf : findSub " | ".data line with _ | idx
    · exact Or.inr ⟨findSub_none_no_occ (by decide) line hf,
        by simp [stripLine, hmatch, hf]⟩
    · exact Or.inl ⟨idx, findSub_some_first line idx hf,
        by simp [stripLine, hmatch, hf]⟩
  · intro line hmatch
    simp [stripLine, hmatch]
  · intro content
    refine splitLines_joinNL _ ?_ ?_
    · intro h
      exact splitLines_ne_nil content (List.map_eq_nil_iff.mp h)
    · intro l hl
      obtain ⟨l0, hl0, rfl⟩ := List.mem_map.mp hl
      intro hnl
      exact splitLines_no_nl content l0 hl0 (stripLine_subset l0 '\n' hnl)

/-- Witness for `strip_timestamps_spec`: the matching-line branch at a
concrete timestamped line. -/
theorem strip_timestamps_spec_witness :
    (∃ idx, ((" | ".data.isPrefixOf
               (("2024-01-15 10:30:00,000 | ok".data).drop idx)) = true ∧
             ∀ j < idx, ((" | ".data).isPrefixOf
               (("2024-01-15 10:30:00,000 | ok".data).drop j)) = false) ∧
            stripLine "2024-01-15 10:30:00,000 | ok".data =
              ("2024-01-15 10:30:00,000 | ok".data).drop (idx + 3)) ∨
    ((∀ k, ((" | ".data).isPrefixOf
      (("2024-01-15 10:30:00,000 | ok".data).drop k)) = false) ∧
     stripLine "2024-01-15 10:30:00,000 | ok".data =
       "2024-01-15 10:30:00,000 | ok".data) :=
  strip_timestamps_spec.1 "2024-01-15 10:30:00,000 | ok".data (by decide)

theorem parsePlayOutput_ok_shape (po : PlayOracle) (content : Chars)
    (r : ParseResult) (h : parsePlayOutput po content = .ok r) :
    (r.success = true ∧ r.error = none) ∨
    (r.success = false ∧ r.error = some "No hosts found in log".data) := by
  unfold parsePlayOutput at h
  rcases hpo : po content with e | ext <;> rw [hpo] at h
  · simp at h
  · dsimp only at h
    split at h
    · rw [Except.ok.injEq] at h
      subst h
      exact Or.inr ⟨rfl, rfl⟩
    · rw [Except.ok.injEq] at h
      subst h
      exact Or.inl ⟨rfl, rfl⟩

/-- C3 helper: the timestamped-log branch yields either a success with
no error or the `NoHostsFound` failure. -/
theorem parseLogFile_ok_shape (lo : LogsOracle) (content : Chars)
    (r : ParseResult) (h : parseLogFile lo content = .ok r) :
    (r.success = true ∧ r.error = none) ∨
    (r.success = false ∧ r.error = some "No hosts found in log".data) := by
  unfold parseLogFile at h
  rcases hlo : lo content with e | lext <;> rw [hlo] at h
  · simp at h
  · dsimp only at h
    split at h
    · rw [Except.ok.injEq] at h
      subst h
      exact Or.inr ⟨rfl, rfl⟩
    · rw [Except.ok.injEq] at h
      subst h
      exact Or.inl ⟨rfl, rfl⟩

/-- Shared case analysis of `parse`: the result is a success without
error, or carries exactly one of the three failure messages. -/
theorem parse_cases (po : PlayOracle) (lo : LogsOracle) (rawContent : Chars) :
    ((parse po lo rawContent).success = true ∧
      (parse po lo rawContent).error = none) ∨
    ((parse po lo rawContent).success = false ∧
      (parse po lo rawContent).error = some "Empty log content".data) ∨
    ((parse po lo rawContent).success = false ∧
      (parse po lo rawContent).error = some "No hosts found in log".data) ∨
    ((parse po lo rawContent).success = false ∧
      (parse po lo rawContent).error = some "Log parsing failed".data) := by
    unfold parse
    split
    · exact Or.inr (Or.inl ⟨rfl, rfl⟩)
    · dsimp only
      by_cases hfmt :
          detectFormat (normalizeContent rawContent) = "logs".data
      · rw [if_pos hfmt]
        rcases hok : parseLogFile lo (normalizeContent rawContent) with e | r
        · exact Or.inr (Or.inr (Or.inr ⟨rfl, rfl⟩))
        · rcases parseLogFile_ok_shape lo _ r hok with ⟨h1, h2⟩ | ⟨h1, h2⟩
          · exact Or.inl ⟨h1, h2⟩
          · exact Or.inr (Or.inr (Or.inl ⟨h1, h2⟩))
      · rw [if_neg hfmt]
        rcases hok : parsePlayOutput po (normalizeContent rawContent) with e | r
        · exact Or.inr (Or.inr (Or.inr ⟨rfl, rfl⟩))
        · rcases parsePlayOutput_ok_shape po _ r hok with ⟨h1, h2⟩ | ⟨h1, h2⟩
          · exact Or.inl ⟨h1, h2⟩
          · exact Or.inr (Or.inr (Or.inl ⟨h1, h2⟩))

/-- C3: for every input string and every behaviour of the external
library (including raised exceptions), `parse` returns exactly one
result: a success, or exactly one of the categorized failures
`EmptyContent` (`Empty log content`), `NoHostsFound`
(`No hosts found in log`) or `UnexpectedFailure` (`Log parsing failed`);
no exception propagates, and success holds exactly when no error is
set, so the four cases are mutually exclusive. -/
theorem parse_total (po : PlayOracle) (lo : LogsOracle) (rawContent : Chars) :
    (((parse po lo rawContent).success = true ∧
        (parse po lo rawContent).error = none) ∨
      ((parse po lo rawContent).success = false ∧
        (parse po lo rawContent).error = some "Empty log content".data) ∨
      ((parse po lo rawContent).success = false ∧
        (parse po lo rawContent).error = some "No hosts found in log".data) ∨
      ((parse po lo rawContent).success = false ∧
        (parse po lo rawContent).error = some "Log parsing failed".data)) ∧
    ((parse po lo rawContent).success = true ↔
      (parse po lo rawContent).error = none) := by
  have main := parse_cases po lo rawContent
  refine ⟨main, ?_⟩
  rcases main with ⟨h1, h2⟩ | ⟨h1, h2⟩ | ⟨h1, h2⟩ | ⟨h1, h2⟩ <;>
    rw [h1, h2] <;> simp

/-- The empty-input guard of `parse` fires exactly on whitespace-only
input. -/
theorem parse_guard_iff (rawContent : Chars) :
    (rawContent.isEmpty || (pyStrip rawContent).isEmpty) = true ↔
      pyStrip rawContent = [] := by
  constructor
  · intro h
    have h2 : rawContent = [] ∨ pyStrip rawContent = [] := by
      simpa [List.isEmpty_iff] using h
    rcases h2 with h1 | h1
    · rw [h1]
      rfl
    · exact h1
  · intro h
    simp [List.isEmpty_iff, h]

/-- For non-blank input the `EmptyContent` message can no longer
arise. -/
theorem parse_else_cases (po : PlayOracle) (lo : LogsOracle) (rawContent : Chars)
    (hne : pyStrip rawContent ≠ []) :
    (parse po lo rawContent).error = none ∨
    (parse po lo rawContent).error = some "No hosts found in log".data ∨
    (parse po lo rawContent).error = some "Log parsing failed".data := by
  have hguard : ¬(rawContent.isEmpty || (pyStrip rawContent).isEmpty) = true :=
    fun h => hne ((parse_guard_iff rawContent).mp h)
  unfold parse
  rw [if_neg hguard]
  dsimp only
  by_cases hfmt : detectFormat (normalizeContent rawContent) = "logs".data
  · rw [if_pos hfmt]
    rcases hok : parseLogFile lo (normalizeContent rawContent) with e | r
    · exact Or.inr (Or.inr rfl)
    · rcases parseLogFile_ok_shape lo _ r hok with ⟨_, h2⟩ | ⟨_, h2⟩
      · exact Or.inl h2
      · exact Or.inr (Or.inl h2)
  · rw [if_neg hfmt]
    rcases hok : parsePlayOutput po (normalizeContent rawContent) with e | r
    · exact Or.inr (Or.inr rfl)
    · rcases parsePlayOutput_ok_shape po _ r hok with ⟨_, h2⟩ | ⟨_, h2⟩
      · exact Or.inl h2
      · exact Or.inr (Or.inl h2)

/-- C5: `parse` yields the `EmptyContent` failure exactly when the input
strips to nothing; and for non-blank input whose dispatched branch
recovers no host from a recap (the external parser returning an empty
recap on the raw branch, or recaps aggregating to no host on the
timestamped branch), `parse` yields the `NoHostsFound` failure, not a
success. -/
theorem parse_empty_nohosts_spec :
    (∀ (po : PlayOracle) (lo : LogsOracle) (rawContent : Chars),
      (parse po lo rawContent).error = some "Empty log content".data ↔
        pyStrip rawContent = []) ∧
    (∀ (po : PlayOracle) (lo : LogsOracle) (rawContent : Chars) (ext : PlayExt),
      pyStrip rawContent ≠ [] →
      detectFormat (normalizeContent rawContent) ≠ "logs".data →
      po (normalizeContent rawContent) = .ok ext →
      extractHostsFromRecap ext.recap = [] →
      (parse po lo rawContent).success = false ∧
      (parse po lo rawContent).error = some "No hosts found in log".data) ∧
    (∀ (po : PlayOracle) (lo : LogsOracle) (rawContent : Chars) (lext : LogsExt),
      pyStrip rawContent ≠ [] →
      detectFormat (normalizeContent rawContent) = "logs".data →
      lo (normalizeContent rawContent) = .ok lext →
      (logsAccumGo ([], []) lext.plays).2 = [] →
      (parse po lo rawContent).success = false ∧
      (parse po lo rawContent).error = some "No hosts found in log".data) := by
  refine ⟨?_, ?_, ?_⟩
  · intro po lo rawContent
    constructor
    · intro herr
      by_contra hne
      rcases parse_else_cases po lo rawContent hne with h | h | h <;>
        rw [herr] at h <;> simp at h
    · intro h
      have hguard : (rawContent.isEmpty || (pyStrip rawContent).isEmpty) = true :=
        (parse_guard_iff rawContent).mpr h
      unfold parse
      rw [if_pos hguard]
  · intro po lo rawContent ext hne hfmt hpo hhosts
    have hguard : ¬(rawContent.isEmpty || (pyStrip rawContent).isEmpty) = true :=
      fun hg => hne ((parse_guard_iff rawContent).mp hg)
    unfold parse
    rw [if_neg hguard]
    dsimp only
    rw [if_neg hfmt]
    unfold parsePlayOutput
    rw [hpo]
    dsimp only
    rw [hhosts]
    exact ⟨rfl, rfl⟩
  · intro po lo rawContent lext hne hfmt hlo hhosts
    have hguard : ¬(rawContent.isEmpty || (pyStrip rawContent).isEmpty) = true :=
      fun hg => hne ((parse_guard_iff rawContent).mp hg)
    unfold parse
    rw [if_neg hguard]
    dsimp only
    rw [if_pos hfmt]
    unfold parseLogFile
    rw [hlo]
    dsimp only
    rw [hhosts]
    exact ⟨rfl, rfl⟩

/-- Witness for `parse_empty_nohosts_spec` at whitespace input and at a
non-blank input with an empty recap. -/
theorem parse_empty_nohosts_spec_witness :
    (parse trivialPlayOracle trivialLogsOracle "  ".data).error =
      some "Empty log content".data ∧
    (parse trivialPlayOracle trivialLogsOracle "PLAY RECAP".data).success = false ∧
    (parse trivialPlayOracle trivialLogsOracle "PLAY RECAP".data).error =
      some "No hosts found in log".data :=
  ⟨(parse_empty_nohosts_spec.1 _ _ _).mpr (by decide),
   (parse_empty_nohosts_spec.2.1 _ _ _ ⟨[], []⟩ (by decide) (by decide) rfl
     rfl).1,
   (parse_empty_nohosts_spec.2.1 _ _ _ ⟨[], []⟩ (by decide) (by decide) rfl
     rfl).2⟩

/-- C4: when the same hostname appears in the recaps of more than one
section, the single merged `ParsedHost` carries the per-field sums of
its counts across the sections; in particular two recap sections with
ok=2 and ok=3 for `h1` merge to one `ParsedHost` with ok=5 through the
full `parse` pipeline. -/
theorem recap_aggregation_spec :
    (∀ (h : Chars) (m1 m2 : List (Chars × Int)) (n1 n2 : List Chars),
      (logsAccumGo ([], []) [⟨n1, [(h, m1)]⟩, ⟨n2, [(h, m2)]⟩]).2 =
        [{ hostname := h,
           ok := countsGet m1 "ok".data + countsGet m2 "ok".data,
           changed := countsGet m1 "changed".data + countsGet m2 "changed".data,
           failed := countsGet m1 "failed".data + countsGet m2 "failed".data,
           unreachable :=
             countsGet m1 "unreachable".data + countsGet m2 "unreachable".data,
           skipped := countsGet m1 "skipped".data + countsGet m2 "skipped".data,
           rescued := countsGet m1 "rescued".data + countsGet m2 "rescued".data,
           ignored := countsGet m1 "ignored".data + countsGet m2 "ignored".data }]) ∧
    (parse trivialPlayOracle twoRecapLogsOracle
        "2024-01-15 10:30:00,000 | PLAY RECAP".data).hosts =
      [{ hostname := "h1".data, ok := 5 }] := by
  constructor
  · intro h m1 m2 n1 n2
    simp [logsAccumGo, accumHosts, extractHostsFromRecap, addHostCounts, accumNames]
  · decide

/-- C6: `failed: [h1] => {"msg": "boom"}` yields message `boom`, inline
and on the task result; a structured block whose `msg` is the string
sequence `["a","b"]` (spanning several lines after the status line)
yields `a`, newline, `b`; and a failed line with no recoverable
structure and no nearby `"msg":` pattern yields a null message while the
task extraction still completes with that result recorded. -/
theorem failure_message_spec :
    extractFailureMessage "failed: [h1] => \x7b\"msg\": \"boom\"\x7d".data [] =
      some "boom".data ∧
    extractTasksFromContent
      "PLAY [app] ***\nTASK [t] ***\nfailed: [h1] => \x7b\"msg\": \"boom\"\x7d".data
      [] =
      [{ name := "t".data, order := 0, playName := "app".data,
         lineNumber := some 2,
         results := [⟨"h1".data, "failed".data, some "boom".data⟩] }] ∧
    extractFailureMessage "failed: [h1] => \x7b".data
      ["\"msg\": [\"a\",".data, "\"b\"]".data, "\x7d".data] = some "a\nb".data ∧
    extractTasksFromContent
      ("PLAY [app] ***\nTASK [t] ***\nfatal: [h1]: FAILED! => \x7b\n" ++
       "\"msg\": [\"a\",\n\"b\"]\n\x7d\nPLAY RECAP").data [] =
      [{ name := "t".data, order := 0, playName := "app".data,
         lineNumber := some 2,
         results := [⟨"h1".data, "fatal".data, some "a\nb".data⟩] }] ∧
    extractFailureMessage "failed: [h1]".data ["no recoverable structure".data] =
      none ∧
    extractTasksFromContent
      "PLAY [app] ***\nTASK [t] ***\nfailed: [h1]\nPLAY RECAP".data [] =
      [{ name := "t".data, order := 0, playName := "app".data,
         lineNumber := some 2,
         results := [⟨"h1".data, "failed".data, none⟩] }] := by
  refine ⟨by decide, by decide, by decide, by decide, by decide, by decide⟩

/-- Dict assignment on an absent key appends. -/
theorem alSet_of_none {κ α : Type} [DecidableEq κ] (m : List (κ × α)) (k : κ)
    (v : α) (h : (alGet m k).isNone = true) : alSet m k v = m ++ [(k, v)] := by
  unfold alSet
  rw [if_neg]
  rw [Option.isNone_iff_eq_none] at h
  simp [h]

/-- One scanner step either leaves the task map unchanged or merges one
matched host result into it. -/
theorem teStep_taskMap_cases (st : TEState) (i : Nat) (line : Chars)
    (rest : List Chars) :
    (teStep st i line rest).taskMap = st.taskMap ∨
    ∃ cp tn ord tl host stat,
      st.inTask = some (cp, tn, ord, tl) ∧
      (teStep st i line rest).taskMap =
        updateTaskResults
          (if (alGet st.taskMap (cp, tn, ord)).isNone then
            alSet st.taskMap (cp, tn, ord)
              ⟨tn, ord, cp, some tl, []⟩
          else st.taskMap) (cp, tn, ord) host stat
          (if stat = "failed".data || stat = "fatal".data then
            extractFailureMessage line rest
          else none) := by
  by_cases h1 : startsWithL "PLAY [".data (pyStrip line) = true
  · rcases hps : playSearch (pyStrip line) with _ | p
    · left; simp [teStep, h1, hps]
    · left; simp [teStep, h1, hps]
  · by_cases h2 : startsWithL "TASK [".data (pyStrip line) = true
    · rcases hcp : st.curPlay with _ | cp
      · left; simp [teStep, h1, h2, hcp]
      · rcases hts : taskSearch (pyStrip line) with _ | tn
        · left; simp [teStep, h1, h2, hcp, hts]
        · left; simp [teStep, h1, h2, hcp, hts]
    · by_cases h3 : startsWithL "PLAY RECAP".data (pyStrip line) = true
      · left; simp [teStep, h1, h2, h3]
      · rcases hin : st.inTask with _ | ⟨cp, tn, ord, tl⟩
        · left; simp [teStep, h1, h2, h3, hin]
        · rcases hsm : statusMatchL (pyStrip line) with _ | ⟨stat, host⟩
          · left; simp [teStep, h1, h2, h3, hin, hsm]
          · right
            exact ⟨cp, tn, ord, tl, host, stat, rfl,
              by simp [teStep, h1, h2, h3, hin, hsm]⟩

/-- A per-task property preserved by the upsert and satisfied by a
freshly created single-result task holds for every task after any
step. -/
theorem teStep_preserves (P : ParsedTask → Prop)
    (hupd : ∀ (t : ParsedTask) (host stat : Chars) (msg : Option Chars), P t →
      P { t with results :=
            t.results.filter (fun r => decide (r.hostname ≠ host)) ++
              [⟨host, stat, msg⟩] })
    (hnew : ∀ (tn : Chars) (ord : Nat) (cp : Chars) (tl : Nat) (host stat : Chars)
      (msg : Option Chars),
      P { name := tn, order := ord, playName := cp, lineNumber := some tl,
          results := [(⟨host, stat, msg⟩ : ParsedTaskResult)] })
    (st : TEState) (i : Nat) (line : Chars) (rest : List Chars)
    (hst : ∀ e ∈ st.taskMap, P e.2) :
    ∀ e ∈ (teStep st i line rest).taskMap, P e.2 := by
  intro e he
  rcases teStep_taskMap_cases st i line rest with hmap |
    ⟨cp, tn, ord, tl, host, stat, hin, hmap⟩
  · rw [hmap] at he
    exact hst e he
  · rw [hmap] at he
    unfold updateTaskResults at he
    obtain ⟨e', he', rfl⟩ := List.mem_map.mp he
    by_cases hnone : (alGet st.taskMap (cp, tn, ord)).isNone = true
    · rw [if_pos hnone, alSet_of_none _ _ _ hnone] at he'
      rcases List.mem_append.mp he' with hmem | hmem
      · by_cases hk : e'.1 = (cp, tn, ord)
        · rw [if_pos hk]
          exact hupd e'.2 _ _ _ (hst e' hmem)
        · rw [if_neg hk]
          exact hst e' hmem
      · have he2 : e' = ((cp, tn, ord),
            ({ name := tn, order := ord, playName := cp,
               lineNumber := some tl, results := [] } : ParsedTask)) := by
          simpa using hmem
        subst he2
        rw [if_pos rfl]
        exact hnew tn ord cp tl host stat _
    · rw [if_neg hnone] at he'
      by_cases hk : e'.1 = (cp, tn, ord)
      · rw [if_pos hk]
        exact hupd e'.2 _ _ _ (hst e' he')
      · rw [if_neg hk]
        exact hst e' he'

/-- The scan-wide invariant over all lines. -/
theorem extractGo_invariant (P : ParsedTask → Prop)
    (hupd : ∀ (t : ParsedTask) (host stat : Chars) (msg : Option Chars), P t →
      P { t with results :=
            t.results.filter (fun r => decide (r.hostname ≠ host)) ++
              [⟨host, stat, msg⟩] })
    (hnew : ∀ (tn : Chars) (ord : Nat) (cp : Chars) (tl : Nat) (host stat : Chars)
      (msg : Option Chars),
      P { name := tn, order := ord, playName := cp, lineNumber := some tl,
          results := [(⟨host, stat, msg⟩ : ParsedTaskResult)] }) :
    ∀ (lines : List Chars) (st : TEState) (i : Nat),
      (∀ e ∈ st.taskMap, P e.2) → ∀ e ∈ extractGo st i lines, P e.2 := by
  intro lines
  induction lines with
  | nil =>
    intro st i hst e he
    exact hst e he
  | cons l rest ih =>
    intro st i hst e he
    exact ih _ _ (teStep_preserves P hupd hnew st i l rest hst) e he

/-- Invariants of every task produced by `_extract_tasks_from_content`. -/
theorem extractTasks_invariant (P : ParsedTask → Prop)
    (hupd : ∀ (t : ParsedTask) (host stat : Chars) (msg : Option Chars), P t →
      P { t with results :=
            t.results.filter (fun r => decide (r.hostname ≠ host)) ++
              [⟨host, stat, msg⟩] })
    (hnew : ∀ (tn : Chars) (ord : Nat) (cp : Chars) (tl : Nat) (host stat : Chars)
      (msg : Option Chars),
      P { name := tn, order := ord, playName := cp, lineNumber := some tl,
          results := [(⟨host, stat, msg⟩ : ParsedTaskResult)] })
    (content : Chars) (playNames : List Chars) :
    ∀ t ∈ extractTasksFromContent content playNames, P t := by
  intro t ht
  obtain ⟨e, he, rfl⟩ := List.mem_map.mp ht
  exact extractGo_invariant P hupd hnew (splitLines content) _ 0 (by simp) e he

/-- C10: every `ParsedTask` in the output has a non-empty results list —
a task record is created only once a host-result line matches; a task
header with no matching result line in any occurrence contributes no
task; and the recorded source line is the header line of the occurrence
in which the first result was matched (line 4, the second header, when
the first occurrence had no results). -/
theorem tasks_nonempty_spec :
    (∀ (content : Chars) (playNames : List Chars),
      ∀ t ∈ extractTasksFromContent content playNames, t.results ≠ []) ∧
    extractTasksFromContent
      "PLAY [app] ***\nTASK [empty] ***\nPLAY RECAP".data [] = [] ∧
    extractTasksFromContent
      ("PLAY [app] ***\nTASK [empty] ***\nPLAY [app] ***\n" ++
       "TASK [empty] ***\nok: [h1]").data [] =
      [{ name := "empty".data, order := 0, playName := "app".data,
         lineNumber := some 4,
         results := [⟨"h1".data, "ok".data, none⟩] }] := by
  refine ⟨?_, by decide, by decide⟩
  intro content playNames
  exact extractTasks_invariant _
    (fun t host stat msg _ => by simp)
    (fun tn ord cp tl host stat msg => by simp)
    content playNames

/-- Witness for `tasks_nonempty_spec` at a concrete transcript. -/
theorem tasks_nonempty_spec_witness :
    ({ name := "empty".data, order := 0, playName := "app".data,
       lineNumber := some 2,
       results := [⟨"h1".data, "ok".data, none⟩] } : ParsedTask).results ≠ [] :=
  tasks_nonempty_spec.1 "PLAY [app] ***\nTASK [empty] ***\nok: [h1]".data []
    _ (by decide)

/-- The per-host upsert keeps hostnames pairwise distinct. -/
theorem nodup_upsert (l : List ParsedTaskResult) (host stat : Chars)
    (msg : Option Chars)
    (h : (l.map (fun r => r.hostname)).Nodup) :
    (((l.filter (fun x => decide (x.hostname ≠ host))) ++
        [(⟨host, stat, msg⟩ : ParsedTaskResult)]).map
      (fun r => r.hostname)).Nodup := by
  rw [List.map_append, List.nodup_append]
  refine ⟨?_, List.nodup_singleton _, ?_⟩
  · exact h.sublist ((l.filter_sublist).map _)
  · intro a ha hb
    simp only [List.map_cons, List.map_nil, List.mem_singleton] at hb
    subst hb
    obtain ⟨x, hx, hxh⟩ := List.mem_map.mp ha
    have := List.of_mem_filter hx
    rw [decide_eq_true_eq] at this
    exact this hxh

/-- The greedy `[^\]]+` group stops exactly at the first `]`. -/
theorem takeWhile_append_stop (X r : Chars) (h : ']' ∉ X) :
    (X ++ ']' :: r).takeWhile (fun c => c != ']') = X ∧
    (X ++ ']' :: r).dropWhile (fun c => c != ']') = ']' :: r := by
  induction X with
  | nil => simp [List.takeWhile, List.dropWhile]
  | cons c X ih =>
    have hc : c ≠ ']' := fun hq => h (by simp [hq])
    have hr : ']' ∉ X := fun hq => h (by simp [hq])
    obtain ⟨h1, h2⟩ := ih hr
    constructor
    · simp only [List.cons_append, List.takeWhile_cons]
      simp [hc, h1]
    · simp only [List.cons_append, List.dropWhile_cons]
      simp [hc, h2]

/-- The bracket group of `NAME]…` is `NAME`. -/
theorem bracketGroup_name (X r : Chars) (hne : X ≠ []) (hnb : ']' ∉ X) :
    bracketGroup (X ++ ']' :: r) = some X := by
  unfold bracketGroup
  obtain ⟨h1, h2⟩ := takeWhile_append_stop X r hnb
  rw [h1, h2]
  simp [List.isEmpty_iff, hne]

/-- A literal consumes itself. -/
theorem dropLit_self_append (lit r : Chars) : dropLit lit (lit ++ r) = some r := by
  induction lit with
  | nil => rfl
  | cons c lit ih => simp [dropLit, ih]

/-- A header regex whose literal matches at position 0 with a well-formed
bracketed name yields that name. -/
theorem searchHeader_at_start (lit : Chars) (c : Char) (s X : Chars)
    (hcons : lit ++ (X ++ [']']) = c :: s)
    (hne : X ≠ []) (hnb : ']' ∉ X) :
    searchHeader lit (c :: s) = some X := by
  rw [← hcons]
  rcases hlit : lit ++ (X ++ [']']) with _ | ⟨c0, s0⟩
  · simp at hlit
  · rw [searchHeader]
    rw [show dropLit lit (c0 :: s0) = some (X ++ [']']) from by
      rw [← hlit]; exact dropLit_self_append lit _]
    dsimp only
    rw [show (X ++ [']'] : Chars) = X ++ ']' :: [] from rfl]
    rw [bracketGroup_name X [] hne hnb]

/-- `PLAY [X]` lines match the play pattern with group `X`. -/
theorem playSearch_playLine (X : Chars) (hX : goodName X) :
    playSearch (playLine X) = some X :=
  searchHeader_at_start "PLAY [".data 'P' ("LAY [".data ++ (X ++ [']'])) X rfl
    hX.1 hX.2.1

/-- `TASK [Y]` lines match the task pattern with group `Y`. -/
theorem taskSearch_taskLine (Y : Chars) (hY : goodName Y) :
    taskSearch (taskLine Y) = some Y :=
  searchHeader_at_start "TASK [".data 'T' ("ASK [".data ++ (Y ++ [']'])) Y rfl
    hY.1 hY.2.1

/-- `dropWhile` is the identity when the head fails the predicate. -/
theorem dropWhile_eq_self_of_head (p : Char → Bool) :
    ∀ s : Chars, (∀ c, s.head? = some c → p c = false) → s.dropWhile p = s
  | [], _ => rfl
  | c :: rest, h => by simp [List.dropWhile_cons, h c rfl]

/-- `str.strip()` is the identity on text with non-space ends. -/
theorem pyStrip_eq_self (s : Chars)
    (hh : ∀ c, s.head? = some c → isPySpace c = false)
    (hl : ∀ c, s.getLast? = some c → isPySpace c = false) : pyStrip s = s := by
  unfold pyStrip
  rw [dropWhile_eq_self_of_head _ s hh]
  rw [dropWhile_eq_self_of_head _ s.reverse
    (fun c hc => hl c (by rwa [List.head?_reverse] at hc))]
  exact List.reverse_reverse s

/-- Strip is the identity on a line with explicit non-space first and
last characters. -/
theorem pyStrip_line_form (c : Char) (mid : Chars) (d : Char)
    (hc : isPySpace c = false) (hd : isPySpace d = false) :
    pyStrip (c :: (mid ++ [d])) = c :: (mid ++ [d]) := by
  apply pyStrip_eq_self
  · intro x hx
    simp only [List.head?_cons, Option.some.injEq] at hx
    exact hx ▸ hc
  · intro x hx
    rw [show (c :: (mid ++ [d]) : Chars) = (c :: mid) ++ [d] from rfl,
      List.getLast?_concat] at hx
    simp only [Option.some.injEq] at hx
    exact hx ▸ hd

theorem pyStrip_playLine (X : Chars) : pyStrip (playLine X) = playLine X := by
  have h : playLine X = 'P' :: (("LAY [".data ++ X) ++ [']']) := by
    rw [playLine, ← List.append_assoc]
    rfl
  rw [h]
  exact pyStrip_line_form 'P' ("LAY [".data ++ X) ']' rfl rfl

theorem pyStrip_taskLine (Y : Chars) : pyStrip (taskLine Y) = taskLine Y := by
  have h : taskLine Y = 'T' :: (("ASK [".data ++ Y) ++ [']']) := by
    rw [taskLine, ← List.append_assoc]
    rfl
  rw [h]
  exact pyStrip_line_form 'T' ("ASK [".data ++ Y) ']' rfl rfl

theorem pyStrip_okLine (h : Chars) : pyStrip (okLine h) = okLine h := by
  have hq : okLine h = 'o' :: (("k: [".data ++ h) ++ [']']) := by
    rw [okLine, ← List.append_assoc]
    rfl
  rw [hq]
  exact pyStrip_line_form 'o' ("k: [".data ++ h) ']' rfl rfl

theorem pyStrip_chLine (h : Chars) : pyStrip (chLine h) = chLine h := by
  have hq : chLine h = 'c' :: (("hanged: [".data ++ h) ++ [']']) := by
    rw [chLine, ← List.append_assoc]
    rfl
  rw [hq]
  exact pyStrip_line_form 'c' ("hanged: [".data ++ h) ']' rfl rfl

/-- `startswith` holds on the literal's own extension. -/
theorem isPrefixOf_append_self : ∀ (lit r : Chars), lit.isPrefixOf (lit ++ r) = true
  | [], _ => by simp [List.isPrefixOf]
  | c :: lit, r => by simp [List.isPrefixOf, isPrefixOf_append_self lit r]

/-- `startswith` fails on a differing first character. -/
theorem isPrefixOf_cons_ne (a b : Char) (as bs : Chars) (h : a ≠ b) :
    List.isPrefixOf (a :: as) (b :: bs) = false := by
  simp [List.isPrefixOf]
  intro hab
  exact absurd hab h

/-- The status pattern on `ok: [h]`. -/
theorem statusMatchL_okLine (h : Chars) (hne : h ≠ []) (hnb : ']' ∉ h) :
    statusMatchL (okLine h) = some ("ok".data, h) := by
  have hb : bracketGroup (h ++ [']']) = some h := by
    rw [show (h ++ [']'] : Chars) = h ++ ']' :: [] from rfl]
    exact bracketGroup_name h [] hne hnb
  simp only [statusMatchL, statusLits, statusTry,
    show dropLitCI "ok".data (okLine h) =
      some (':' :: (' ' :: ('[' :: (h ++ [']'])))) from rfl,
    show statusTail (' ' :: ('[' :: (h ++ [']']))) = bracketGroup (h ++ [']'])
      from rfl,
    hb]

/-- The status pattern on `changed: [h]`. -/
theorem statusMatchL_chLine (h : Chars) (hne : h ≠ []) (hnb : ']' ∉ h) :
    statusMatchL (chLine h) = some ("changed".data, h) := by
  have hb : bracketGroup (h ++ [']']) = some h := by
    rw [show (h ++ [']'] : Chars) = h ++ ']' :: [] from rfl]
    exact bracketGroup_name h [] hne hnb
  simp only [statusMatchL, statusLits, statusTry,
    show dropLitCI "ok".data (chLine h) = none from rfl,
    show dropLitCI "changed".data (chLine h) =
      some (':' :: (' ' :: ('[' :: (h ++ [']'])))) from rfl,
    show statusTail (' ' :: ('[' :: (h ++ [']']))) = bracketGroup (h ++ [']'])
      from rfl,
    hb]

theorem starts_play_playLine (X : Chars) :
    startsWithL "PLAY [".data (playLine X) = true :=
  isPrefixOf_append_self "PLAY [".data (X ++ [']'])

theorem starts_task_taskLine (Y : Chars) :
    startsWithL "TASK [".data (taskLine Y) = true :=
  isPrefixOf_append_self "TASK [".data (Y ++ [']'])

theorem starts_play_taskLine (Y : Chars) :
    startsWithL "PLAY [".data (taskLine Y) = false :=
  isPrefixOf_cons_ne 'P' 'T' _ _ (by decide)

theorem starts_task_playLine (X : Chars) :
    startsWithL "TASK [".data (playLine X) = false :=
  isPrefixOf_cons_ne 'T' 'P' _ _ (by decide)

theorem starts_recap_playLine (X : Chars) :
    startsWithL "PLAY RECAP".data (playLine X) = false := by
  show List.isPrefixOf
    ('P' :: 'L' :: 'A' :: 'Y' :: ' ' :: "RECAP".data)
    ('P' :: 'L' :: 'A' :: 'Y' :: ' ' :: '[' :: (X ++ [']'])) = false
  simp [List.isPrefixOf]

theorem starts_play_okLine (h : Chars) :
    startsWithL "PLAY [".data (okLine h) = false :=
  isPrefixOf_cons_ne 'P' 'o' _ _ (by decide)

theorem starts_task_okLine (h : Chars) :
    startsWithL "TASK [".data (okLine h) = false :=
  isPrefixOf_cons_ne 'T' 'o' _ _ (by decide)

theorem starts_recap_okLine (h : Chars) :
    startsWithL "PLAY RECAP".data (okLine h) = false :=
  isPrefixOf_cons_ne 'P' 'o' _ _ (by decide)

theorem starts_play_chLine (h : Chars) :
    startsWithL "PLAY [".data (chLine h) = false :=
  isPrefixOf_cons_ne 'P' 'c' _ _ (by decide)

theorem starts_task_chLine (h : Chars) :
    startsWithL "TASK [".data (chLine h) = false :=
  isPrefixOf_cons_ne 'T' 'c' _ _ (by decide)

theorem starts_recap_chLine (h : Chars) :
    startsWithL "PLAY RECAP".data (chLine h) = false :=
  isPrefixOf_cons_ne 'P' 'c' _ _ (by decide)

/-- Scanner step on a `PLAY [X]` header. -/
theorem teStep_play (st : TEState) (i : Nat) (rest : List Chars) (X : Chars)
    (hX : goodName X) :
    teStep st i (playLine X) rest =
      { st with curPlay := some X, playTaskOrder := alSet st.playTaskOrder X 0,
                inTask := none } := by
  simp [teStep, pyStrip_playLine X, starts_play_playLine X,
    playSearch_playLine X hX]

/-- Scanner step on a `TASK [Y]` header inside a play. -/
theorem teStep_task (st : TEState) (i : Nat) (rest : List Chars) (Y X : Chars)
    (hY : goodName Y) (hcur : st.curPlay = some X) :
    teStep st i (taskLine Y) rest =
      { st with
          playTaskOrder :=
            alSet st.playTaskOrder X ((alGet st.playTaskOrder X).getD 0 + 1),
          inTask := some (X, Y, (alGet st.playTaskOrder X).getD 0, i + 1) } := by
  simp [teStep, pyStrip_taskLine Y, starts_play_taskLine Y,
    starts_task_taskLine Y, hcur, taskSearch_taskLine Y hY]

/-- Scanner step on an `ok: [h]` result inside a task. -/
theorem teStep_ok (st : TEState) (i : Nat) (rest : List Chars) (h : Chars)
    (hne : h ≠ []) (hnb : ']' ∉ h) (cp tn : Chars) (ord tl : Nat)
    (hin : st.inTask = some (cp, tn, ord, tl)) :
    teStep st i (okLine h) rest =
      { st with taskMap := upsertStatus st.taskMap cp tn ord tl h "ok".data none } := by
  have hcond : (decide ("ok".data = "failed".data) ||
      decide ("ok".data = "fatal".data)) = false := by decide
  simp [teStep, pyStrip_okLine h, starts_play_okLine h, starts_task_okLine h,
    starts_recap_okLine h, hin, statusMatchL_okLine h hne hnb, hcond,
    upsertStatus]

/-- Scanner step on a `changed: [h]` result inside a task. -/
theorem teStep_ch (st : TEState) (i : Nat) (rest : List Chars) (h : Chars)
    (hne : h ≠ []) (hnb : ']' ∉ h) (cp tn : Chars) (ord tl : Nat)
    (hin : st.inTask = some (cp, tn, ord, tl)) :
    teStep st i (chLine h) rest =
      { st with taskMap :=
          upsertStatus st.taskMap cp tn ord tl h "changed".data none } := by
  have hcond : (decide ("changed".data = "failed".data) ||
      decide ("changed".data = "fatal".data)) = false := by decide
  simp [teStep, pyStrip_chLine h, starts_play_chLine h, starts_task_chLine h,
    starts_recap_chLine h, hin, statusMatchL_chLine h hne hnb, hcond,
    upsertStatus]

/-- A run of `ok: [h]` lines only folds upserts into the task map and
advances the line index. -/
theorem extractGo_okBatch (cp tn : Chars) (ord tl : Nat) :
    ∀ (hs : List Chars), (∀ h ∈ hs, h ≠ [] ∧ ']' ∉ h) →
    ∀ (st : TEState) (i : Nat) (rest : List Chars),
      st.inTask = some (cp, tn, ord, tl) →
      extractGo st i (hs.map okLine ++ rest) =
        extractGo { st with taskMap := applyOkBatch cp tn ord tl st.taskMap hs }
          (i + hs.length) rest := by
  intro hs
  induction hs with
  | nil =>
    intro _ st i rest _
    simp [applyOkBatch]
  | cons h hs ih =>
    intro hgood st i rest hin
    rw [List.map_cons, List.cons_append, extractGo,
      teStep_ok st i _ h (hgood h (by simp)).1 (hgood h (by simp)).2 cp tn ord tl
        hin]
    rw [ih (fun x hx => hgood x (by simp [hx]))
      { st with taskMap := upsertStatus st.taskMap cp tn ord tl h "ok".data none }
      (i + 1) rest (by simpa using hin)]
    have harith : i + 1 + hs.length = i + (hs.length + 1) := by omega
    simp [applyOkBatch, harith]

/-- Upsert of a fresh host into an existing task appends its result. -/
theorem upsertStatus_existing (cp tn : Chars) (ord tl : Nat) (t : ParsedTask)
    (h stat : Chars) (msg : Option Chars)
    (hfresh : ∀ r ∈ t.results, r.hostname ≠ h) :
    upsertStatus [((cp, tn, ord), t)] cp tn ord tl h stat msg =
      [((cp, tn, ord), { t with results := t.results ++ [⟨h, stat, msg⟩] })] := by
  have hget : alGet [((cp, tn, ord), t)] (cp, tn, ord) = some t := by
    simp [alGet]
  have hfilter :
      t.results.filter (fun r => decide (r.hostname ≠ h)) = t.results :=
    List.filter_eq_self.mpr (fun r hr => decide_eq_true (hfresh r hr))
  simp [upsertStatus, hget, updateTaskResults, hfilter]
  intro a ha
  exact hfresh a ha

/-- A batch of fresh, distinct hosts appends its results in order. -/
theorem applyOkBatch_fresh (cp tn : Chars) (ord tl : Nat) :
    ∀ (hs : List Chars) (t : ParsedTask), hs.Nodup →
      (∀ h ∈ hs, ∀ r ∈ t.results, r.hostname ≠ h) →
      applyOkBatch cp tn ord tl [((cp, tn, ord), t)] hs =
        [((cp, tn, ord),
          { t with results :=
              t.results ++ hs.map (fun x => ⟨x, "ok".data, none⟩) })] := by
  intro hs
  induction hs with
  | nil =>
    intro t _ _
    simp [applyOkBatch]
  | cons h hs ih =>
    intro t hnodup hfresh
    rw [show applyOkBatch cp tn ord tl [((cp, tn, ord), t)] (h :: hs) =
        applyOkBatch cp tn ord tl
          (upsertStatus [((cp, tn, ord), t)] cp tn ord tl h "ok".data none) hs
      from rfl]
    rw [upsertStatus_existing cp tn ord tl t h "ok".data none
      (fun r hr => hfresh h (by simp) r hr)]
    rw [ih { t with results := t.results ++ [⟨h, "ok".data, none⟩] }
      (List.nodup_cons.mp hnodup).2 ?_]
    · simp
    · intro x hx r hr
      rcases List.mem_append.mp hr with hmem | hmem
      · exact hfresh x (by simp [hx]) r hmem
      · have : r = ⟨h, "ok".data, none⟩ := by simpa using hmem
        subst this
        intro hcontra
        exact (List.nodup_cons.mp hnodup).1
          (by rw [show h = x from hcontra]; exact hx)

/-- The first batch creates the task keyed by (play, task, order) with
the batch hosts as results. -/
theorem applyOkBatch_create (cp tn : Chars) (ord tl : Nat) (h : Chars)
    (hs : List Chars) (hnodup : (h :: hs).Nodup) :
    applyOkBatch cp tn ord tl [] (h :: hs) =
      [((cp, tn, ord),
        { name := tn, order := ord, playName := cp, lineNumber := some tl,
          results := (h :: hs).map (fun x => ⟨x, "ok".data, none⟩) })] := by
  have h1 : upsertStatus [] cp tn ord tl h "ok".data none =
      [((cp, tn, ord),
        { name := tn, order := ord, playName := cp, lineNumber := some tl,
          results := [⟨h, "ok".data, none⟩] })] := by
    simp [upsertStatus, alGet, alSet, updateTaskResults]
  rw [show applyOkBatch cp tn ord tl [] (h :: hs) =
      applyOkBatch cp tn ord tl (upsertStatus [] cp tn ord tl h "ok".data none) hs
    from rfl]
  rw [h1]
  rw [applyOkBatch_fresh cp tn ord tl hs _ (List.nodup_cons.mp hnodup).2 ?_]
  · simp
  · intro x hx r hr
    have : r = (⟨h, "ok".data, none⟩ : ParsedTaskResult) := by simpa using hr
    subst this
    intro hcontra
    exact (List.nodup_cons.mp hnodup).1
      (by rw [show h = x from hcontra]; exact hx)

/-- Dict lookup at the head key. -/
theorem alGet_cons_self {κ α : Type} [DecidableEq κ] (k : κ) (v : α)
    (m : List (κ × α)) : alGet ((k, v) :: m) k = some v := by
  simp [alGet]

/-- Dict update of the only key. -/
theorem alSet_single_same {κ α : Type} [DecidableEq κ] (k : κ) (v w : α) :
    alSet [(k, v)] k w = [(k, w)] := by
  simp [alSet, alGet]

/-- The full scan of the two-occurrence serial transcript. -/
theorem serial_merge_trace (X Y h1 : Chars) (hs1t hs2 : List Chars)
    (hX : goodName X) (hY : goodName Y)
    (hh : ∀ h ∈ h1 :: hs1t, h ≠ [] ∧ ']' ∉ h)
    (hh2 : ∀ h ∈ hs2, h ≠ [] ∧ ']' ∉ h)
    (hnd1 : (h1 :: hs1t).Nodup) (hnd2 : hs2.Nodup)
    (hdisj : ∀ h ∈ h1 :: hs1t, h ∉ hs2) :
    extractGo ⟨none, [], none, []⟩ 0
      (playLine X :: taskLine Y :: ((h1 :: hs1t).map okLine ++
        (playLine X :: taskLine Y :: hs2.map okLine))) =
    [((X, Y, 0),
      { name := Y, order := 0, playName := X, lineNumber := some 2,
        results := ((h1 :: hs1t) ++ hs2).map
          (fun x => ⟨x, "ok".data, none⟩) })] := by
  rw [extractGo, teStep_play _ 0 _ X hX]
  show extractGo ⟨some X, [(X, 0)], none, []⟩ 1 _ = _
  rw [extractGo, teStep_task _ 1 _ Y X hY rfl]
  rw [alGet_cons_self, Option.getD_some, alSet_single_same]
  show extractGo ⟨some X, [(X, 1)], some (X, Y, 0, 2), []⟩ 2 _ = _
  rw [extractGo_okBatch X Y 0 2 (h1 :: hs1t) hh _ 2 _ rfl]
  dsimp only
  rw [applyOkBatch_create X Y 0 2 h1 hs1t hnd1]
  rw [extractGo, teStep_play _ _ _ X hX]
  dsimp only
  rw [alSet_single_same]
  rw [extractGo, teStep_task _ _ _ Y X hY rfl]
  dsimp only
  rw [alGet_cons_self, Option.getD_some, alSet_single_same]
  rw [show (hs2.map okLine) = hs2.map okLine ++ [] from (List.append_nil _).symm]
  rw [extractGo_okBatch X Y 0 _ hs2 hh2 _ _ _ rfl]
  dsimp only
  rw [applyOkBatch_fresh X Y 0 _ hs2 _ hnd2 ?_]
  · rw [extractGo]
    dsimp only
    simp [List.map_append]
  · intro h hmem r hr
    obtain ⟨x, hx, rfl⟩ := List.mem_map.mp hr
    show x ≠ h
    intro hc
    exact hdisj x hx (hc ▸ hmem)

/-- Lookup finds a binding appended behind absent keys. -/
theorem alGet_append_right {κ α : Type} [DecidableEq κ] (k : κ) (v : α) :
    ∀ m : List (κ × α), alGet m k = none → alGet (m ++ [(k, v)]) k = some v := by
  intro m
  induction m with
  | nil => intro _; simp [alGet]
  | cons e m ih =>
    intro h
    by_cases hk : e.1 = k
    · simp [alGet, List.find?_cons, hk] at h
    · have hfalse : (decide (e.1 = k)) = false := by simp [hk]
      simp only [alGet, List.cons_append, List.find?_cons, hfalse] at h ⊢
      exact ih h

/-- Lookup after an in-place dict update. -/
theorem alGet_map_update {κ α : Type} [DecidableEq κ] (k : κ) (v : α) :
    ∀ m : List (κ × α), (alGet m k).isSome = true →
      alGet (m.map (fun e => if e.1 = k then (k, v) else e)) k = some v := by
  intro m
  induction m with
  | nil => intro h; simp [alGet] at h
  | cons e m ih =>
    intro h
    by_cases hk : e.1 = k
    · simp [alGet, List.find?_cons, hk]
    · have hfalse : (decide (e.1 = k)) = false := by simp [hk]
      simp only [alGet, List.map_cons, List.find?_cons, hfalse] at h ⊢
      rw [if_neg hk]
      simp only [List.find?_cons, hfalse]
      exact ih h

/-- Dict assignment then lookup yields the assigned value. -/
theorem alGet_alSet_self {κ α : Type} [DecidableEq κ] (m : List (κ × α)) (k : κ)
    (v : α) : alGet (alSet m k v) k = some v := by
  unfold alSet
  by_cases hsome : (alGet m k).isSome = true
  · rw [if_pos hsome]
    exact alGet_map_update k v m hsome
  · rw [if_neg hsome]
    refine alGet_append_right k v m ?_
    rcases hv : alGet m k with _ | w
    · rfl
    · rw [hv] at hsome
      simp at hsome

/-- Bracketed lines built from newline-free names are newline-free. -/
theorem nl_not_mem_wrap (pre X : Chars) (hpre : '\n' ∉ pre) (hX : '\n' ∉ X) :
    '\n' ∉ pre ++ (X ++ [']']) := by
  intro hmem
  rcases List.mem_append.mp hmem with hm | hm
  · exact hpre hm
  · rcases List.mem_append.mp hm with hm2 | hm2
    · exact hX hm2
    · simp at hm2

/-- C1: on every play header the play's task-order counter is reset to 0
(first conjunct, for any state and any line matching the header
pattern); consequently a transcript in which the same `PLAY [X]` /
`TASK [Y]` pair appears twice with disjoint host sets merges into
exactly one `ParsedTask` with identity (X, Y, 0) whose result map is
the union of both occurrences' host results, keeping the first
occurrence's source line. -/
theorem serial_merge_spec :
    (∀ (st : TEState) (i : Nat) (line : Chars) (rest : List Chars) (p : Chars),
      startsWithL "PLAY [".data (pyStrip line) = true →
      playSearch (pyStrip line) = some p →
      alGet (teStep st i line rest).playTaskOrder p = some 0) ∧
    (∀ (X Y h1 : Chars) (hs1t hs2 : List Chars),
      goodName X → goodName Y →
      (∀ h ∈ h1 :: hs1t, goodName h) → (∀ h ∈ hs2, goodName h) →
      (h1 :: hs1t).Nodup → hs2.Nodup → (∀ h ∈ h1 :: hs1t, h ∉ hs2) →
      extractTasksFromContent
        (joinNL (playLine X :: taskLine Y :: ((h1 :: hs1t).map okLine ++
          (playLine X :: taskLine Y :: hs2.map okLine)))) [X] =
        [{ name := Y, order := 0, playName := X, lineNumber := some 2,
           results := ((h1 :: hs1t) ++ hs2).map
             (fun x => ⟨x, "ok".data, none⟩) }]) := by
  constructor
  · intro st i line rest p hstart hsearch
    rw [show (teStep st i line rest).playTaskOrder = alSet st.playTaskOrder p 0
      from by simp [teStep, hstart, hsearch]]
    exact alGet_alSet_self _ p 0
  · intro X Y h1 hs1t hs2 hX hY hh1 hh2 hnd1 hnd2 hdisj
    have hnl : ∀ l ∈ (playLine X :: taskLine Y :: ((h1 :: hs1t).map okLine ++
        (playLine X :: taskLine Y :: hs2.map okLine))), '\n' ∉ l := by
      intro l hl
      simp only [List.mem_cons, List.mem_append, List.mem_map] at hl
      rcases hl with rfl | rfl | ⟨x, hx, rfl⟩ | rfl | rfl | ⟨x, hx, rfl⟩
      · exact nl_not_mem_wrap _ X (by decide) hX.2.2
      · exact nl_not_mem_wrap _ Y (by decide) hY.2.2
      · exact nl_not_mem_wrap _ x (by decide) (hh1 x (List.mem_cons.mpr hx)).2.2
      · exact nl_not_mem_wrap _ X (by decide) hX.2.2
      · exact nl_not_mem_wrap _ Y (by decide) hY.2.2
      · exact nl_not_mem_wrap _ x (by decide) (hh2 x hx).2.2

    unfold extractTasksFromContent
    rw [splitLines_joinNL _ (by simp) hnl]
    rw [serial_merge_trace X Y h1 hs1t hs2 hX hY
      (fun h hm => ⟨(hh1 h hm).1, (hh1 h hm).2.1⟩)
      (fun h hm => ⟨(hh2 h hm).1, (hh2 h hm).2.1⟩) hnd1 hnd2 hdisj]
    rfl

/-- Witness for `serial_merge_spec` at a concrete two-batch transcript. -/
theorem serial_merge_spec_witness :
    alGet (teStep ⟨none, [], none, []⟩ 0 "PLAY [web] ***".data []).playTaskOrder
      "web".data = some 0 ∧
    extractTasksFromContent
      (joinNL (playLine "app".data :: taskLine "deploy".data ::
        (([["h1".data]].headD [] |>.map okLine) ++
          (playLine "app".data :: taskLine "deploy".data ::
            ["h2".data].map okLine)))) ["app".data] =
      [{ name := "deploy".data, order := 0, playName := "app".data,
         lineNumber := some 2,
         results := (["h1".data] ++ ["h2".data]).map
           (fun x => ⟨x, "ok".data, none⟩) }] :=
  ⟨serial_merge_spec.1 ⟨none, [], none, []⟩ 0 "PLAY [web] ***".data []
      "web".data (by decide) (by decide),
   serial_merge_spec.2 "app".data "deploy".data "h1".data [] ["h2".data]
     ⟨by decide, by decide, by decide⟩ ⟨by decide, by decide, by decide⟩
     (by intro h hm; simp only [List.mem_singleton] at hm; subst hm
         exact ⟨by decide, by decide, by decide⟩)
     (by intro h hm; simp only [List.mem_singleton] at hm; subst hm
         exact ⟨by decide, by decide, by decide⟩)
     (by decide) (by decide) (by decide)⟩

/-- Upsert into an empty map creates the task with one result. -/
theorem upsertStatus_create (cp tn : Chars) (ord tl : Nat) (h stat : Chars)
    (msg : Option Chars) :
    upsertStatus [] cp tn ord tl h stat msg =
      [((cp, tn, ord),
        { name := tn, order := ord, playName := cp, lineNumber := some tl,
          results := [⟨h, stat, msg⟩] })] := by
  simp [upsertStatus, alGet, alSet, updateTaskResults]

/-- Upsert of a host already holding every result replaces them. -/
theorem upsertStatus_same_host (cp tn : Chars) (ord tl : Nat) (t : ParsedTask)
    (h stat : Chars) (msg : Option Chars)
    (hall : ∀ r ∈ t.results, r.hostname = h) :
    upsertStatus [((cp, tn, ord), t)] cp tn ord tl h stat msg =
      [((cp, tn, ord), { t with results := [⟨h, stat, msg⟩] })] := by
  have hget : alGet [((cp, tn, ord), t)] (cp, tn, ord) = some t := by
    simp [alGet]
  have hfilter : t.results.filter (fun r => decide (r.hostname ≠ h)) = [] := by
    rw [List.filter_eq_nil_iff]
    intro a ha
    simp [hall a ha]
  simp [upsertStatus, hget, updateTaskResults, hfilter]
  exact hall

/-- C2: every `ParsedTask` holds at most one result per hostname (its
hostnames are pairwise distinct, over every input); and when the same
task identity reports the same host twice — `ok` in the first serial
batch, `changed` in the second — the single surviving entry carries the
later occurrence's status. -/
theorem last_write_wins_spec :
    (∀ (content : Chars) (playNames : List Chars),
      ∀ t ∈ extractTasksFromContent content playNames,
        (t.results.map (fun r => r.hostname)).Nodup) ∧
    (∀ (X Y h : Chars), goodName X → goodName Y → goodName h →
      extractTasksFromContent
        (joinNL [playLine X, taskLine Y, okLine h, playLine X, taskLine Y,
          chLine h]) [X] =
        [{ name := Y, order := 0, playName := X, lineNumber := some 2,
           results := [⟨h, "changed".data, none⟩] }]) := by
  constructor
  · intro content playNames
    exact extractTasks_invariant _
      (fun t host stat msg hp => nodup_upsert t.results host stat msg hp)
      (fun tn ord cp tl host stat msg => by simp)
      content playNames
  · intro X Y h hX hY hh
    have hne : h ≠ [] := hh.1
    have hnb : ']' ∉ h := hh.2.1
    have hnl : ∀ l ∈ [playLine X, taskLine Y, okLine h, playLine X, taskLine Y,
        chLine h], '\n' ∉ l := by
      intro l hl
      simp only [List.mem_cons, List.not_mem_nil, or_false] at hl
      rcases hl with rfl | rfl | rfl | rfl | rfl | rfl
      · exact nl_not_mem_wrap _ X (by decide) hX.2.2
      · exact nl_not_mem_wrap _ Y (by decide) hY.2.2
      · exact nl_not_mem_wrap _ h (by decide) hh.2.2
      · exact nl_not_mem_wrap _ X (by decide) hX.2.2
      · exact nl_not_mem_wrap _ Y (by decide) hY.2.2
      · exact nl_not_mem_wrap _ h (by decide) hh.2.2
    unfold extractTasksFromContent
    rw [splitLines_joinNL _ (by simp) hnl]
    rw [show ([playLine X, taskLine Y, okLine h, playLine X, taskLine Y,
        chLine h] : List Chars) = playLine X :: taskLine Y :: okLine h ::
        playLine X :: taskLine Y :: chLine h :: [] from rfl]
    rw [extractGo, teStep_play _ 0 _ X hX]
    show (extractGo ⟨some X, [(X, 0)], none, []⟩ 1 _).map Prod.snd = _
    rw [extractGo, teStep_task _ 1 _ Y X hY rfl]
    rw [alGet_cons_self, Option.getD_some, alSet_single_same]
    show (extractGo ⟨some X, [(X, 1)], some (X, Y, 0, 2), []⟩ 2 _).map
      Prod.snd = _
    rw [extractGo, teStep_ok _ 2 _ h hne hnb X Y 0 2 rfl]
    dsimp only
    rw [upsertStatus_create]
    rw [extractGo, teStep_play _ 3 _ X hX]
    dsimp only
    rw [alSet_single_same]
    rw [extractGo, teStep_task _ 4 _ Y X hY rfl]
    dsimp only
    rw [alGet_cons_self, Option.getD_some, alSet_single_same]
    rw [extractGo, teStep_ch _ 5 _ h hne hnb X Y 0 5 rfl]
    dsimp only
    rw [upsertStatus_same_host X Y 0 5 _ h "changed".data none
      (by intro r hr
          simp only [List.mem_singleton] at hr
          subst hr
          rfl)]
    rw [extractGo]
    rfl

/-- Witness for `last_write_wins_spec` at concrete transcripts. -/
theorem last_write_wins_spec_witness :
    (({ name := "t".data, order := 0, playName := "app".data,
        lineNumber := some 2,
        results := [⟨"h1".data, "ok".data, none⟩] } :
        ParsedTask).results.map (fun r => r.hostname)).Nodup ∧
    extractTasksFromContent
      (joinNL [playLine "app".data, taskLine "t".data, okLine "h1".data,
        playLine "app".data, taskLine "t".data, chLine "h1".data])
      ["app".data] =
      [{ name := "t".data, order := 0, playName := "app".data,
         lineNumber := some 2,
         results := [⟨"h1".data, "changed".data, none⟩] }] :=
  ⟨last_write_wins_spec.1 "PLAY [app] x\nTASK [t] x\nok: [h1]".data []
      _ (by decide),
   last_write_wins_spec.2 "app".data "t".data "h1".data
     ⟨by decide, by decide, by decide⟩ ⟨by decide, by decide, by decide⟩
     ⟨by decide, by decide, by decide⟩⟩

/-- A first match in the suffix starting at line `i` is at or after `i`. -/
theorem fplFrom_ge :
    ∀ (lines : List Chars) (i : Nat) (n : Chars) (ln : Nat),
      fplFrom lines i n = some ln → i ≤ ln := by
  intro lines
  induction lines with
  | nil => intro i n ln h; cases h
  | cons l rest ih =>
    intro i n ln h
    rw [fplFrom] at h
    split at h
    · cases h
      exact Nat.le_refl _
    · exact Nat.le_of_succ_le (ih (i + 1) n ln h)

/-- Characterization of the header scan: it appends one play per known
name first matched in the scanned lines, with consecutive orders from
the running counter, the first matched line as source line, names
distinct and lines strictly increasing; the found set ends as exactly
the names appended. -/
theorem epScan_spec (names : List Chars) :
    ∀ (lines : List Chars) (i : Nat) (plays : List ParsedPlay) (order : Nat)
      (found : List Chars),
    ∃ Δ : List ParsedPlay,
      (epScan names lines i plays order found).1 = plays ++ Δ ∧
      (epScan names lines i plays order found).2.1 = order + Δ.length ∧
      (∀ n, n ∈ (epScan names lines i plays order found).2.2 ↔
        n ∈ found ∨ n ∈ Δ.map ParsedPlay.name) ∧
      Δ.map ParsedPlay.order = List.range' order Δ.length ∧
      (∀ p ∈ Δ, p.name ∈ names ∧ p.name ∉ found ∧
        ∃ ln, p.lineNumber = some ln ∧ fplFrom lines i p.name = some ln) ∧
      (Δ.map ParsedPlay.name).Nodup ∧
      Δ.Pairwise (fun p q => p.lineNumber.getD 0 < q.lineNumber.getD 0) ∧
      (∀ n ∈ names, n ∉ found → fplFrom lines i n ≠ none →
        n ∈ Δ.map ParsedPlay.name) := by
  intro lines
  induction lines with
  | nil =>
    intro i plays order found
    refine ⟨[], by simp [epScan], by simp [epScan], ?_, by simp,
      by simp, by simp, by simp, ?_⟩
    · intro n
      simp [epScan]
    · intro n _ _ hcontra
      exact absurd rfl hcontra
  | cons l rest ih =>
    intro i plays order found
    rcases hps : playSearch l with _ | n
    · obtain ⟨Δ, h1, h2, h3, h4, h5, h6, h7, h8⟩ := ih (i + 1) plays order found
      have heq : epScan names (l :: rest) i plays order found =
          epScan names rest (i + 1) plays order found := by
        rw [epScan, hps]
      have hstep : ∀ n', fplFrom (l :: rest) i n' = fplFrom rest (i + 1) n' := by
        intro n'
        rw [fplFrom, if_neg (by rw [hps]; intro hc; cases hc)]
      rw [heq]
      refine ⟨Δ, h1, h2, h3, h4, ?_, h6, h7, ?_⟩
      · intro p hp
        obtain ⟨ha, hb, ln, hc, hd⟩ := h5 p hp
        exact ⟨ha, hb, ln, hc, by rw [hstep]; exact hd⟩
      · intro n' hn1 hn2 hn3
        rw [hstep] at hn3
        exact h8 n' hn1 hn2 hn3
    · by_cases hcond : n ∈ names ∧ n ∉ found
      · obtain ⟨Δ, h1, h2, h3, h4, h5, h6, h7, h8⟩ :=
          ih (i + 1) (plays ++ [⟨n, order, some i⟩]) (order + 1) (n :: found)
        have hred : epScan names (l :: rest) i plays order found =
            if n ∈ names ∧ n ∉ found then
              epScan names rest (i + 1) (plays ++ [⟨n, order, some i⟩])
                (order + 1) (n :: found)
            else epScan names rest (i + 1) plays order found := by
          rw [epScan, hps]
        rw [hred, if_pos hcond]
        have hnames : ∀ q ∈ Δ, q.name ≠ n := by
          intro q hq hqn
          exact (h5 q hq).2.1 (by rw [hqn]; exact List.mem_cons_self n found)
        refine ⟨⟨n, order, some i⟩ :: Δ, ?_, ?_, ?_, ?_, ?_, ?_, ?_, ?_⟩
        · rw [h1]
          simp
        · rw [h2]
          simp only [List.length_cons]
          omega
        · intro n'
          rw [h3 n']
          simp only [List.mem_cons, List.map_cons]
          constructor
          · rintro ((rfl | hmem) | hmem)
            · exact Or.inr (by simp)
            · exact Or.inl hmem
            · exact Or.inr (by simp [hmem])
          · rintro (hmem | hmem)
            · exact Or.inl (Or.inr hmem)
            · rcases hmem with hv | hv
              · exact Or.inl (Or.inl hv)
              · exact Or.inr hv
        · simp only [List.map_cons, List.length_cons, h4]
          rfl
        · intro p hp
          rcases List.mem_cons.mp hp with rfl | hp2
          · refine ⟨hcond.1, hcond.2, i, rfl, ?_⟩
            rw [fplFrom, if_pos hps]
          · obtain ⟨ha, hb, ln, hc, hd⟩ := h5 p hp2
            refine ⟨ha, fun hmem => hb (List.mem_cons_of_mem n hmem), ln, hc, ?_⟩
            rw [fplFrom, if_neg]
            · exact hd
            · rw [hps]
              intro hcontra
              have : p.name = n := by
                have := Option.some.inj hcontra
                exact this.symm
              exact hnames p hp2 this
        · simp only [List.map_cons, List.nodup_cons]
          refine ⟨?_, h6⟩
          intro hmem
          obtain ⟨q, hq, hqn⟩ := List.mem_map.mp hmem
          exact hnames q hq hqn
        · rw [List.pairwise_cons]
          refine ⟨?_, h7⟩
          intro q hq
          obtain ⟨-, -, ln, hc, hd⟩ := h5 q hq
          have := fplFrom_ge rest (i + 1) q.name ln hd
          simp only [hc, Option.getD_some]
          omega
        · intro n' hn1 hn2 hn3
          by_cases hv : n' = n
          · subst hv
            simp
          · have hnotc : ¬(playSearch l = some n') := by
              rw [hps]
              intro hc
              exact hv (Option.some.inj hc).symm
            rw [fplFrom, if_neg hnotc] at hn3
            have := h8 n' hn1
              (fun hmem => (List.mem_cons.mp hmem).elim hv hn2) hn3
            simp only [List.map_cons, List.mem_cons]
            exact Or.inr this
      · obtain ⟨Δ, h1, h2, h3, h4, h5, h6, h7, h8⟩ := ih (i + 1) plays order found
        have hred : epScan names (l :: rest) i plays order found =
            if n ∈ names ∧ n ∉ found then
              epScan names rest (i + 1) (plays ++ [⟨n, order, some i⟩])
                (order + 1) (n :: found)
            else epScan names rest (i + 1) plays order found := by
          rw [epScan, hps]
        rw [hred, if_neg hcond]
        have hskip : ∀ n', n' ∈ names → n' ∉ found →
            fplFrom (l :: rest) i n' = fplFrom rest (i + 1) n' := by
          intro n' hn1 hn2
          rw [fplFrom, if_neg]
          rw [hps]
          intro hc
          have : n = n' := Option.some.inj hc
          subst this
          exact hcond ⟨hn1, hn2⟩
        refine ⟨Δ, h1, h2, h3, h4, ?_, h6, h7, ?_⟩
        · intro p hp
          obtain ⟨ha, hb, ln, hc, hd⟩ := h5 p hp
          exact ⟨ha, hb, ln, hc, by rw [hskip p.name ha hb]; exact hd⟩
        · intro n' hn1 hn2 hn3
          rw [hskip n' hn1 hn2] at hn3
          exact h8 n' hn1 hn2 hn3

/-- Characterization of the fallback loop: it appends exactly the known
names not found, in list order, with null source lines and consecutive
orders. -/
theorem epFallback_spec :
    ∀ (names : List Chars) (plays : List ParsedPlay) (order : Nat)
      (found : List Chars),
    ∃ Δ : List ParsedPlay,
      epFallback names plays order found = plays ++ Δ ∧
      Δ.map ParsedPlay.order = List.range' order Δ.length ∧
      Δ.map ParsedPlay.name = names.filter (fun n => decide (n ∉ found)) ∧
      ∀ p ∈ Δ, p.lineNumber = none := by
  intro names
  induction names with
  | nil =>
    intro plays order found
    exact ⟨[], by simp [epFallback], by simp, by simp, by simp⟩
  | cons n names ih =>
    intro plays order found
    by_cases hf : n ∉ found
    · obtain ⟨Δ, h1, h2, h3, h4⟩ := ih (plays ++ [⟨n, order, none⟩])
        (order + 1) found
      refine ⟨⟨n, order, none⟩ :: Δ, ?_, ?_, ?_, ?_⟩
      · rw [epFallback, if_pos hf, h1]
        simp
      · simp only [List.map_cons, h2, List.length_cons]
        rfl
      · simp only [List.map_cons, h3, List.filter_cons]
        rw [if_pos (decide_eq_true hf)]
      · intro p hp
        rcases List.mem_cons.mp hp with rfl | hp2
        · rfl
        · exact h4 p hp2
    · obtain ⟨Δ, h1, h2, h3, h4⟩ := ih plays order found
      refine ⟨Δ, ?_, h2, ?_, h4⟩
      · rw [epFallback, if_neg hf]
        exact h1
      · rw [h3, List.filter_cons, if_neg]
        simp only [decide_eq_true_eq]
        exact hf

/-- C7: the returned plays split as located plays `A` followed by
fallback plays `B`; their order values are the dense 0-based sequence
0,1,2,…; every located play carries the line of its name's first
matched `PLAY [name]` header, the located plays appear in strictly
increasing first-match order with no name repeated, every known name
that matches some line is among them, and the fallback plays are
exactly the remaining known names, appended after all located plays
with a null source line. -/
theorem plays_order_spec (content : Chars) (names : List Chars) :
    ∃ A B, extractPlaysWithLineNumbers content names = A ++ B ∧
      (A ++ B).map ParsedPlay.order = List.range (A ++ B).length ∧
      (∀ p ∈ A, p.name ∈ names ∧
        ∃ ln, p.lineNumber = some ln ∧
          fplFrom (splitLines content) 1 p.name = some ln) ∧
      A.Pairwise (fun p q => p.lineNumber.getD 0 < q.lineNumber.getD 0) ∧
      (A.map ParsedPlay.name).Nodup ∧
      (∀ n ∈ names, fplFrom (splitLines content) 1 n ≠ none →
        n ∈ A.map ParsedPlay.name) ∧
      B.map ParsedPlay.name =
        names.filter (fun n => decide (n ∉ A.map ParsedPlay.name)) ∧
      (∀ p ∈ B, p.lineNumber = none) := by
  obtain ⟨A, h1, h2, h3, h4, h5, h6, h7, h8⟩ :=
    epScan_spec names (splitLines content) 1 [] 0 []
  obtain ⟨B, g1, g2, g3, g4⟩ :=
    epFallback_spec names
      (epScan names (splitLines content) 1 [] 0 []).1
      (epScan names (splitLines content) 1 [] 0 []).2.1
      (epScan names (splitLines content) 1 [] 0 []).2.2
  have hA : (epScan names (splitLines content) 1 [] 0 []).1 = A := by
    rw [h1]
    simp
  have horder : (epScan names (splitLines content) 1 [] 0 []).2.1 = A.length := by
    rw [h2]
    simp
  refine ⟨A, B, ?_, ?_, ?_, h7, h6, ?_, ?_, g4⟩
  · show epFallback names (epScan names (splitLines content) 1 [] 0 []).1
      (epScan names (splitLines content) 1 [] 0 []).2.1
      (epScan names (splitLines content) 1 [] 0 []).2.2 = A ++ B
    rw [g1, hA]
  · rw [List.map_append, h4, g2, horder, List.length_append,
      List.range_eq_range']
    have hr := List.range'_append_1 0 A.length B.length
    simp only [Nat.zero_add] at hr
    rw [hr, Nat.add_comm]
  · intro p hp
    obtain ⟨ha, _, ln, hc, hd⟩ := h5 p hp
    exact ⟨ha, ln, hc, hd⟩
  · intro n hn hne
    exact h8 n hn (by simp) hne
  · rw [g3]
    refine List.filter_congr ?_
    intro n _
    have hiff : n ∈ (epScan names (splitLines content) 1 [] 0 []).2.2 ↔
        n ∈ A.map ParsedPlay.name := by
      rw [h3 n]
      simp
    rw [decide_eq_decide]
    constructor
    · intro hni hmem
      exact hni (hiff.mpr hmem)
    · intro hni hmem
      exact hni (hiff.mp hmem)
